import Mathlib

/-!
Verification of the identity-card extraction engine (src/id_card_ocr.py and
src/app.py) against its natural-language specification.

The Python code is shallowly embedded: strings are modelled as `List Char`
(`LC`), Python dicts as association lists in final insertion order, floats
(recognition confidences) as `ℚ`, and each regular expression the source uses
is implemented as an explicit matching function over `List Char` with the same
semantics (leftmost match, ordered alternation, greedy repetition).  Unicode
NFKD decomposition and case mapping, which Python takes from `unicodedata` and
`str.lower`, are modelled by explicit tables covering ASCII and the Vietnamese
precomposed letters exercised here; characters outside the tables decompose to
themselves, and combining marks are the U+0300–U+036F block.
-/

namespace IDC

/-- Model of Python strings: a list of characters. -/
abbrev LC := List Char

/-- Characters matched by the regex class `\s` / stripped by `str.strip()`
(ASCII whitespace). -/
def isSpaceM (c : Char) : Bool :=
  c = ' ' || c = '\t' || c = '\n' || c = '\x0D' || c = '\x0B' || c = '\x0C'

/-- ASCII lowercase letters a–z. -/
def isLowerAZ (c : Char) : Bool := 'a' ≤ c && c ≤ 'z'

/-- ASCII uppercase letters A–Z. -/
def isUpperAZ (c : Char) : Bool := 'A' ≤ c && c ≤ 'Z'

/-- ASCII decimal digits, the regex class `\d`. -/
def isDigitM (c : Char) : Bool := '0' ≤ c && c ≤ '9'

/-- ASCII case lowering (the effect of Python `str.lower` on ASCII),
written as an explicit 26-way table so that proofs can case on it. -/
def asciiToLower (c : Char) : Char :=
  if c = 'A' then 'a' else if c = 'B' then 'b' else if c = 'C' then 'c'
  else if c = 'D' then 'd' else if c = 'E' then 'e' else if c = 'F' then 'f'
  else if c = 'G' then 'g' else if c = 'H' then 'h' else if c = 'I' then 'i'
  else if c = 'J' then 'j' else if c = 'K' then 'k' else if c = 'L' then 'l'
  else if c = 'M' then 'm' else if c = 'N' then 'n' else if c = 'O' then 'o'
  else if c = 'P' then 'p' else if c = 'Q' then 'q' else if c = 'R' then 'r'
  else if c = 'S' then 's' else if c = 'T' then 't' else if c = 'U' then 'u'
  else if c = 'V' then 'v' else if c = 'W' then 'w' else if c = 'X' then 'x'
  else if c = 'Y' then 'y' else if c = 'Z' then 'z' else c

/-- ASCII case raising (used by the model of Python `str.title`). -/
def asciiToUpper (c : Char) : Char :=
  if c = 'a' then 'A' else if c = 'b' then 'B' else if c = 'c' then 'C'
  else if c = 'd' then 'D' else if c = 'e' then 'E' else if c = 'f' then 'F'
  else if c = 'g' then 'G' else if c = 'h' then 'H' else if c = 'i' then 'I'
  else if c = 'j' then 'J' else if c = 'k' then 'K' else if c = 'l' then 'L'
  else if c = 'm' then 'M' else if c = 'n' then 'N' else if c = 'o' then 'O'
  else if c = 'p' then 'P' else if c = 'q' then 'Q' else if c = 'r' then 'R'
  else if c = 's' then 'S' else if c = 't' then 'T' else if c = 'u' then 'U'
  else if c = 'v' then 'V' else if c = 'w' then 'W' else if c = 'x' then 'X'
  else if c = 'y' then 'Y' else if c = 'z' then 'Z' else c

/-- Lowercase table for the non-ASCII letters the embedding covers
(the effect of Python `str.lower` on them). -/
def vietLower (c : Char) : Char :=
  if c = 'À' then 'à' else if c = 'Á' then 'á' else if c = 'Ê' then 'ê'
  else if c = 'Í' then 'í' else if c = 'Ộ' then 'ộ' else if c = 'Ớ' then 'ớ'
  else if c = 'Đ' then 'đ' else c

/-- Model of Python `str.lower` on a single character. -/
def toLowerM (c : Char) : Char :=
  if c.toNat < 0xC0 then asciiToLower c else vietLower c

/-- Combining marks (dropped by `_normalize_text` after decomposition):
the Combining Diacritical Marks block U+0300–U+036F, which contains every
mark the decomposition table below emits. -/
def combiningB (c : Char) : Bool :=
  0x300 ≤ c.toNat && c.toNat ≤ 0x36F

/-- NFKD decomposition of a single character, as `unicodedata.normalize
("NFKD", ·)` produces it (base letter followed by canonically ordered
combining marks), tabulated for the Vietnamese precomposed letters this
development exercises; other characters decompose to themselves. -/
def nfkdChar (c : Char) : List Char :=
  if c.toNat < 0xC0 then [c]
  else if c = 'à' then ['a', '̀'] else if c = 'á' then ['a', '́']
  else if c = 'ê' then ['e', '̂'] else if c = 'í' then ['i', '́']
  else if c = 'ộ' then ['o', '̣', '̂']
  else if c = 'ớ' then ['o', '̛', '́']
  else if c = 'À' then ['A', '̀'] else if c = 'Á' then ['A', '́']
  else if c = 'Ê' then ['E', '̂'] else if c = 'Í' then ['I', '́']
  else if c = 'Ộ' then ['O', '̣', '̂']
  else if c = 'Ớ' then ['O', '̛', '́']
  else [c]

/-- NFKD decomposition of a string. -/
def nfkdL (s : LC) : LC := s.flatMap nfkdChar

/-- Drop combining marks (`"".join(ch for ch in text if not combining(ch))`). -/
def dropComb (s : LC) : LC := s.filter (fun c => !combiningB c)

/-- Model of Python `str.lower` on a string. -/
def lowerL (s : LC) : LC := s.map toLowerM

/-- Model of Python `str.strip()`: remove leading and trailing whitespace. -/
def trimWs (s : LC) : LC :=
  ((s.dropWhile isSpaceM).reverse.dropWhile isSpaceM).reverse

/-- Worker for `collapseWs`; the flag records whether the previous input
character was whitespace (in which case further whitespace is absorbed
into the single space already emitted). -/
def collapseAux : Bool → LC → LC
  | _, [] => []
  | prevSp, c :: t =>
    if isSpaceM c then
      if prevSp then collapseAux true t else ' ' :: collapseAux true t
    else c :: collapseAux false t

/-- Model of `re.sub(r'\s+', ' ', text)`: every maximal whitespace run
becomes a single space. -/
def collapseWs (s : LC) : LC := collapseAux false s

/-- Model of `IDCardOCR._normalize_text`: NFKD-decompose, drop combining
marks, lowercase, strip, collapse whitespace. -/
def normalizeText (s : LC) : LC :=
  collapseWs (trimWs (lowerL (dropComb (nfkdL s))))

/-- A character unchanged by every stage of the normalizer. -/
def stableChar (c : Char) : Prop :=
  nfkdChar c = [c] ∧ combiningB c = false ∧ toLowerM c = c

instance (c : Char) : Decidable (stableChar c) := by
  unfold stableChar
  infer_instance

/-- Shorthand turning a string literal into the `List Char` model. -/
def toL (s : String) : LC := s.data

/-- Python `value.strip(chars)`: remove the given characters from both ends. -/
def trimSet (set : List Char) (s : LC) : LC :=
  ((s.dropWhile set.contains).reverse.dropWhile set.contains).reverse

/-- Python substring membership `needle in hay`. -/
def containsSub (n : LC) : LC → Bool
  | [] => n.isEmpty
  | c :: t => n.isPrefixOf (c :: t) || containsSub n t

/-- One line of `_line_has_any_label` / the `any(label in nline ...)` tests. -/
def hasAnyLabel (nline : LC) (labels : List LC) : Bool :=
  labels.any (fun l => containsSub l nline)

/-- Python `s.split(c, 1)[1]`: everything after the first occurrence of `c`
(callers guard on `c in s`). -/
def splitAfterFirst (c : Char) : LC → LC
  | [] => []
  | d :: t => if d = c then t else splitAfterFirst c t

/-- Letters in the regex `\w` sense, for the scripts this development
covers: ASCII letters plus the Latin-1/Latin-Extended letter ranges that
contain the Vietnamese alphabet (the two non-letter signs U+00D7 and
U+00F7 are excluded). -/
def isLetterM (c : Char) : Bool :=
  c.isAlpha
    || (0xC0 ≤ c.toNat && c.toNat ≤ 0x24F && c.toNat ≠ 0xD7 && c.toNat ≠ 0xF7)
    || (0x1E00 ≤ c.toNat && c.toNat ≤ 0x1EFF)

/-- Characters of the regex class `\w` (word characters). -/
def isWordCharM (c : Char) : Bool := isLetterM c || isDigitM c || c = '_'

/-- Model of `re.sub(r'^[\d\W_]+', '', s)`: the deleted class is exactly
the complement of the letters, so this drops the leading non-letters. -/
def dropLeadingNonLetters (s : LC) : LC := s.dropWhile (fun c => !isLetterM c)

/-- Skip the regex `\s*` (greedy; safe because every continuation in the
patterns modelled here starts with a non-space literal). -/
def skipWs (s : LC) : LC := s.dropWhile isSpaceM

/-- Match a literal prefix and return the remainder. -/
def dropPfx? (p s : LC) : Option LC :=
  if p.isPrefixOf s then some (s.drop p.length) else none

/-- Match a regex alternative of the shape `w₁\s*w₂\s*…\s*wₙ` (literal
words joined by `\s*`) at the start of `s`, returning the remainder. -/
def matchSeq : List LC → LC → Option LC
  | [], s => some s
  | [w], s => dropPfx? w s
  | w :: ws, s => (dropPfx? w s).bind (fun s' => matchSeq ws (skipWs s'))

/-- The alternative `no\.?` of the label pattern. -/
def matchNoDot (s : LC) : Option LC :=
  (dropPfx? (toL "no") s).map (fun s' =>
    match s' with
    | '.' :: t => t
    | t => t)

/-- First successful alternative, mirroring ordered regex alternation. -/
def firstSomeO : List (Option LC) → Option LC
  | [] => none
  | some r :: _ => some r
  | none :: t => firstSomeO t

/-- The label alternation of `_strip_known_labels`, tried in source order
(Python alternation commits to the first alternative that matches, and the
trailing `\s*(?:/\s*)?` cannot fail, so no backtracking is observable). -/
def matchLabelsPre (s : LC) : Option LC :=
  firstSomeO
    [matchSeq [toL "ho", toL "va", toL "ten"] s,
     matchSeq [toL "ho", toL "ten"] s,
     matchSeq [toL "full", toL "name"] s,
     matchSeq [toL "ngay", toL "sinh"] s,
     matchSeq [toL "date", toL "of", toL "birth"] s,
     matchSeq [toL "gioi", toL "tinh"] s,
     matchSeq [toL "sex"] s,
     matchSeq [toL "quoc", toL "tich"] s,
     matchSeq [toL "nationality"] s,
     matchSeq [toL "que", toL "quan"] s,
     matchSeq [toL "place", toL "of", toL "origin"] s,
     matchSeq [toL "noi", toL "thuong", toL "tru"] s,
     matchSeq [toL "thuong", toL "tru"] s,
     matchSeq [toL "permanent", toL "residence"] s,
     matchSeq [toL "residence"] s,
     matchSeq [toL "id", toL "no"] s,
     matchNoDot s,
     matchSeq [toL "so", toL "dinh", toL "danh"] s,
     matchSeq [toL "so"] s]

/-- The trailing `\s*(?:/\s*)?` of the label pattern. -/
def labelTail (s : LC) : LC :=
  match skipWs s with
  | '/' :: t => skipWs t
  | s1 => s1

/-- Model of `re.match(label_pattern, s)` in `_strip_known_labels`,
returning the remainder after the matched prefix. -/
def matchLabels (s : LC) : Option LC := (matchLabelsPre s).map labelTail

/-- The strip set `" ;,:.-"` used throughout the parser. -/
def stripSet : List Char := [' ', ';', ',', ':', '.', '-']

/-- The strip set `" ;,.-"` of `_extract_after_label` (no colon). -/
def afterSet : List Char := [' ', ';', ',', '.', '-']

/-- Model of `re.sub(r'^\s*[^:;\-]*[:;\-]?\s*', '', value, count=1)`:
delete up to and including the first `:`/`;`/`-` plus following
whitespace; with no separator the whole string is deleted. -/
def dropToSep (s : LC) : LC :=
  match s.findIdx? (fun c => c = ':' || c = ';' || c = '-') with
  | some i => skipWs (s.drop (i + 1))
  | none => []

/-- The `while re.match(label_pattern, …)` loop of `_strip_known_labels`.
Each iteration deletes at least one character from a nonempty value and the
loop stops on an empty value, so `length + 1` units of fuel make this equal
to the unbounded loop. -/
def stripLoop : Nat → LC → LC
  | 0, v => v
  | fuel + 1, v =>
    if (matchLabels (normalizeText v)).isSome then
      let v' := trimSet stripSet (dropToSep v)
      if v' = [] then [] else stripLoop fuel v'
    else v

/-- Model of `IDCardOCR._strip_known_labels`. -/
def stripKnownLabels (value : LC) : LC :=
  if value = [] then []
  else
    let v := dropLeadingNonLetters (trimSet stripSet (collapseWs value))
    stripLoop (v.length + 1) v

/-- Model of `IDCardOCR._extract_after_label`: value after the first `:`,
else after the first `-`, else the label-stripped line provided some label
occurs in its normalized form and stripping changed it. -/
def extractAfterLabel (rawLine : LC) (labels : List LC) : LC :=
  if rawLine = [] then []
  else
    let colonRes : LC :=
      if rawLine.contains ':' then
        stripKnownLabels (trimSet afterSet (splitAfterFirst ':' rawLine))
      else []
    if colonRes ≠ [] then colonRes
    else
      let dashRes : LC :=
        if rawLine.contains '-' then
          stripKnownLabels (trimSet afterSet (splitAfterFirst '-' rawLine))
        else []
      if dashRes ≠ [] then dashRes
      else
        let nline := normalizeText rawLine
        if hasAnyLabel nline labels then
          let candidate := stripKnownLabels rawLine
          if candidate ≠ [] ∧ normalizeText candidate ≠ nline then candidate else []
        else []

/-- Model of `IDCardOCR._clean_value`. -/
def cleanValue (value : LC) : LC :=
  trimSet stripSet (collapseWs (stripKnownLabels value))

/-- Python `str.split()` (split on whitespace, dropping empty parts),
used by `_is_noise_or_label`. -/
def splitWsAux (acc : LC) : LC → List LC
  | [] => if acc = [] then [] else [acc.reverse]
  | c :: t =>
    if isSpaceM c then
      if acc = [] then splitWsAux [] t else acc.reverse :: splitWsAux [] t
    else splitWsAux (c :: acc) t

/-- The blocklist of `_is_noise_or_label`. -/
def blockedToks : List LC :=
  [toL "ho va ten", toL "full name", toL "ngay sinh", toL "date of birth",
   toL "gioi tinh", toL "sex", toL "quoc tich", toL "nationality",
   toL "que quan", toL "place of origin", toL "noi thuong tru",
   toL "permanent residence", toL "residence", toL "co gia tri",
   toL "valid until", toL "can cuoc", toL "cong hoa",
   toL "citizen identity card", toL "identity card", toL "can cuoc cong dan"]

/-- Model of `IDCardOCR._is_noise_or_label`. -/
def isNoiseOrLabel (value : LC) : Bool :=
  if value = [] then true
  else
    let n := normalizeText value
    if n.length < 3 then true
    else if blockedToks.any (fun t => containsSub t n) then true
    else if n = toL "quan" || n = toL "pho" || n = toL "of" || n = toL "origin"
        || n = toL "residence" then true
    else if (n ≠ [] && n.all (fun c => isLowerAZ c || isSpaceM c))
        && (splitWsAux [] n).length ≤ 2
        && (n = toL "of" || n = toL "origin" || n = toL "residence") then true
    else false

/-- Expect one of `seps` as the next character. -/
def sepChk (seps : List Char) : LC → Option LC
  | c :: t => if seps.contains c then some t else none
  | [] => none

/-- Expect `\d{4}` next, returning the four digits and the remainder
(a fifth digit may follow, as in the source regexes). -/
def year4 : LC → Option (LC × LC)
  | a :: b :: c :: d :: t =>
    if isDigitM a && isDigitM b && isDigitM c && isDigitM d then
      some ([a, b, c, d], t)
    else none
  | _ => none

/-- After `\s*sep\s*` try the month `\d{1,2}` (greedy, with the regex
backtrack from two digits to one) followed by `\s*sep\s*\d{4}`. -/
def afterDay (seps : List Char) (s : LC) : Option (LC × LC × LC) :=
  (sepChk seps (skipWs s)).bind (fun s1 =>
    let s2 := skipWs s1
    let tryMonth : LC → LC → Option (LC × LC × LC) := fun m rest =>
      (sepChk seps (skipWs rest)).bind (fun r2 =>
        (year4 (skipWs r2)).map (fun p => (m, p.1, p.2)))
    match s2 with
    | a :: b :: t =>
      if isDigitM a then
        if isDigitM b then
          match tryMonth [a, b] t with
          | some r => some r
          | none => tryMonth [a] (b :: t)
        else tryMonth [a] (b :: t)
      else none
    | _ => none)

/-- Try the date pattern `\d{1,2}\s*sep\s*\d{1,2}\s*sep\s*\d{4}` at the
start of `s`; returns the day, month and year digit groups and the
remainder after the match.  The day `\d{1,2}` is greedy with the regex
backtrack from two digits to one. -/
def matchDateFrom (seps : List Char) (s : LC) : Option (LC × LC × LC × LC) :=
  match s with
  | a :: b :: t =>
    if isDigitM a then
      let try2 : Option (LC × LC × LC × LC) :=
        if isDigitM b then
          (afterDay seps t).map (fun p => ([a, b], p.1, p.2.1, p.2.2))
        else none
      match try2 with
      | some r => some r
      | none => (afterDay seps (b :: t)).map (fun p => ([a], p.1, p.2.1, p.2.2))
    else none
  | _ => none

/-- Model of `re.search` for the date patterns: leftmost match, returning
the digit groups. -/
def searchDateGroups (seps : List Char) : LC → Option (LC × LC × LC)
  | [] => none
  | c :: t =>
    match matchDateFrom seps (c :: t) with
    | some (d, m, y, _) => some (d, m, y)
    | none => searchDateGroups seps t

/-- Numeric value of a digit string (Python `int`). -/
def toNatL (ds : LC) : Nat := ds.foldl (fun acc c => acc * 10 + (c.toNat - 48)) 0

/-- The two characters of Python `f"{n:02d}"` for `n ≤ 99`. -/
def pad2 (n : Nat) : LC := [Nat.digitChar (n / 10 % 10), Nat.digitChar (n % 10)]

/-- The four characters of Python `f"{n:04d}"` for `n ≤ 9999`. -/
def pad4 (n : Nat) : LC :=
  [Nat.digitChar (n / 1000 % 10), Nat.digitChar (n / 100 % 10),
   Nat.digitChar (n / 10 % 10), Nat.digitChar (n % 10)]

/-- Model of `IDCardOCR._normalize_date_text`: first match of the pattern
day `\d{1,2}`, dot-or-slash-or-dash, month `\d{1,2}`, dot-or-slash-or-dash,
year `\d{4}` (with `\s*` around the separators), reprinted as `DD/MM/`
followed by the year digits exactly as matched. -/
def normalizeDateText (raw : LC) : LC :=
  if raw = [] then []
  else
    match searchDateGroups ['.', '/', '-'] raw with
    | some (d, m, y) => pad2 (toNatL d) ++ '/' :: pad2 (toNatL m) ++ '/' :: y
    | none => []

/-- Model of `re.findall(date_pattern, s)` for the slash/dash date pattern
of `parse_data`: leftmost non-overlapping matched substrings.  Fuel is the
input length; every step consumes at least one character. -/
def findAllDatesAux : Nat → LC → List LC
  | 0, _ => []
  | _ + 1, [] => []
  | fuel + 1, c :: t =>
    match matchDateFrom ['/', '-'] (c :: t) with
    | some (_, _, _, rest) =>
      ((c :: t).take ((c :: t).length - rest.length)) :: findAllDatesAux fuel rest
    | none => findAllDatesAux fuel t

/-- All slash/dash dates of the document, in order. -/
def findAllDates (s : LC) : List LC := findAllDatesAux s.length s

/-- Word-boundary test used for `\b` before a word character: the position
is at the start or after a non-word character. -/
def wordBdryOk : Option Char → Bool
  | none => true
  | some c => !isWordCharM c

/-- Model of `re.search(r'\b(\d{8})\b', s)`: leftmost run of exactly eight
digits delimited by word boundaries. -/
def findCompactAux : Option Char → LC → Option LC
  | _, [] => none
  | prev, c :: t =>
    let s := c :: t
    let c8 := s.take 8
    if wordBdryOk prev && c8.length = 8 && c8.all isDigitM
        && (match s.drop 8 with | [] => true | d :: _ => !isWordCharM d) then
      some c8
    else findCompactAux (some c) t

/-- Model of `IDCardOCR._normalize_compact_date`: find an eight-digit run,
split as DDMMYYYY, range-check, and reprint as `DD/MM/YYYY`. -/
def normalizeCompactDate (raw : LC) : LC :=
  if raw = [] then []
  else
    match findCompactAux none raw with
    | some [a, b, c, d, e, f, g, h] =>
      let day := toNatL [a, b]
      let month := toNatL [c, d]
      let year := toNatL [e, f, g, h]
      if 1 ≤ day ∧ day ≤ 31 ∧ 1 ≤ month ∧ month ≤ 12 ∧ 1900 ≤ year ∧ year ≤ 2100 then
        pad2 day ++ '/' :: pad2 month ++ '/' :: pad4 year
      else []
    | _ => []

/-- Model of `re.sub(r'\D', '', s)`. -/
def filterDigits (s : LC) : LC := s.filter isDigitM

/-- Model of `re.findall(r'\d{12}', s)`: leftmost non-overlapping runs of
twelve digits.  Fuel is the input length. -/
def findAll12Aux : Nat → LC → List LC
  | 0, _ => []
  | _ + 1, [] => []
  | fuel + 1, c :: t =>
    let s := c :: t
    let c12 := s.take 12
    if c12.length = 12 && c12.all isDigitM then
      c12 :: findAll12Aux fuel (s.drop 12)
    else findAll12Aux fuel t

/-- All twelve-digit runs of the document text. -/
def findAll12 (s : LC) : List LC := findAll12Aux s.length s

/-- Model of `re.search(r'\d{12}', s)`: the first twelve-digit run. -/
def search12 : LC → Option LC
  | [] => none
  | c :: t =>
    let s := c :: t
    let c12 := s.take 12
    if c12.length = 12 && c12.all isDigitM then some c12 else search12 t

/-- Python `s.startswith('0')`. -/
def startsWith0 : LC → Bool
  | '0' :: _ => true
  | _ => false

/-- Worker for `dedupFirst`; fuel is the list length (each step removes
at least the head, so the fuel is sufficient). -/
def dedupFirstAux : Nat → List LC → List LC
  | 0, _ => []
  | _ + 1, [] => []
  | fuel + 1, a :: t => a :: dedupFirstAux fuel (t.filter (fun x => x ≠ a))

/-- First-occurrence deduplication (the key order of a Python `Counter`). -/
def dedupFirst (l : List LC) : List LC := dedupFirstAux l.length l

/-- Model of `Counter(l).items()`: keys in first-occurrence order, each
with its total multiplicity. -/
def counterItems (l : List LC) : List (LC × Nat) :=
  (dedupFirst l).map (fun c => (c, l.count c))

/-- Strict comparison of the sort key `(count, startswith('0'))` used by
`_choose_best_id` (`False < True` as in Python). -/
def keyGtB (p q : Nat × Bool) : Bool :=
  q.1 < p.1 || (p.1 = q.1 && (p.2 && !q.2))

/-- First element attaining the maximal key, which is exactly
`sorted(counts.items(), key=…, reverse=True)[0]` for Python's stable
sort: later elements replace the running best only on a strictly
greater key. -/
def pickFirstMax : LC × Nat → List (LC × Nat) → LC × Nat
  | best, [] => best
  | best, p :: t =>
    if keyGtB (p.2, startsWith0 p.1) (best.2, startsWith0 best.1) then
      pickFirstMax p t
    else pickFirstMax best t

/-- Model of `IDCardOCR._choose_best_id`. -/
def chooseBestId (cands : List LC) : LC :=
  let cleaned := (cands.map filterDigits).filter (fun c => c.length = 12)
  match counterItems cleaned with
  | [] => []
  | p :: rest => (pickFirstMax p rest).1

/-- The key order used by the vote, as a proposition. -/
def keyLeB (p q : Nat × Bool) : Prop :=
  p.1 < q.1 ∨ (p.1 = q.1 ∧ (p.2 = true → q.2 = true))

/-- The key of a counter entry. -/
def keyOf (p : LC × Nat) : Nat × Bool := (p.2, startsWith0 p.1)

/-- Model of `re.split(r'[;,]+', s)`: split on runs of `;`/`,`.  Fuel is
the input length. -/
def splitSepRunsAux : Nat → LC → LC → List LC
  | 0, acc, _ => [acc.reverse]
  | _ + 1, acc, [] => [acc.reverse]
  | fuel + 1, acc, c :: t =>
    if c = ';' || c = ',' then
      acc.reverse :: splitSepRunsAux fuel [] (t.dropWhile (fun d => d = ';' || d = ','))
    else splitSepRunsAux fuel (c :: acc) t

/-- The strip set `" .,-"` of `_dedupe_place_text`. -/
def placeSet : List Char := [' ', '.', ',', '-']

/-- The seen-set fold of `_dedupe_place_text`. -/
def dedupePlaceAux (seen : List LC) : List LC → List LC
  | [] => []
  | p :: t =>
    let pc := trimSet placeSet p
    let n := normalizeText pc
    if pc = [] || seen.contains n then dedupePlaceAux seen t
    else if n = toL "que" || n = toL "quan" || n = toL "pho" || n = toL "thi" then
      dedupePlaceAux seen t
    else pc :: dedupePlaceAux (n :: seen) t

/-- Model of `IDCardOCR._dedupe_place_text`. -/
def dedupePlaceText (value : LC) : LC :=
  if value = [] then []
  else
    List.intercalate (toL ", ")
      (dedupePlaceAux [] (splitSepRunsAux value.length [] value))

/-- Model of `IDCardOCR._extract_value_from_lines`, running on the list of
(original line, normalized line) pairs: at a label hit, the in-line value
wins if nonempty; otherwise the cleaned next line if nonempty; otherwise
the scan continues. -/
def extractValueFromLines : List (LC × LC) → List LC → LC
  | [], _ => []
  | (line, nline) :: rest, labels =>
    if hasAnyLabel nline labels then
      let inline := extractAfterLabel line labels
      if inline ≠ [] then cleanValue inline
      else
        match rest.head? with
        | some (next, _) =>
          let nv := cleanValue next
          if nv ≠ [] then nv else extractValueFromLines rest labels
        | none => extractValueFromLines rest labels
    else extractValueFromLines rest labels

/-- Index of the first occurrence of `n` in `h` (Python `str.find`). -/
def findSubIdxAux (n : LC) : Nat → LC → Option Nat
  | i, h =>
    if n.isPrefixOf h then some i
    else
      match h with
      | [] => none
      | _ :: t => findSubIdxAux n (i + 1) t

/-- The strip set of `_extract_segment_by_labels` (the usual strip set
plus the slash). -/
def segSet : List Char := [' ', ';', ',', ':', '.', '-', '/']

/-- Model of `IDCardOCR._extract_segment_by_labels`: locate the earliest
label occurrence in the normalized line, take the segment after it,
truncate at the earliest stop label, strip, and drop leading non-letters. -/
def extractSegmentByLabels (rawLine : LC) (labels stops : List LC) : LC :=
  let nline := normalizeText rawLine
  let best : Option (Nat × LC) := labels.foldl
    (fun acc label =>
      match findSubIdxAux label 0 nline with
      | some idx =>
        match acc with
        | none => some (idx, label)
        | some (i, _) => if idx < i then some (idx, label) else acc
      | none => acc)
    none
  match best with
  | none => []
  | some (idx, label) =>
    let segment := trimSet segSet (nline.drop (idx + label.length))
    let stopAt := stops.foldl
      (fun acc stop =>
        match findSubIdxAux stop 0 segment with
        | some i => min acc i
        | none => acc)
      segment.length
    dropLeadingNonLetters (trimSet segSet (segment.take stopAt))

/-- The `no` label list of `parse_data`. -/
def noLabels : List LC := [toL "so", toL "so dinh danh", toL "id no", toL "no.", toL "no"]

/-- Section 1 of `parse_data` (identity number): label lookup, then the
twelve-digit vote, then the digit-stripped-document fallback. -/
def noOf (lines : List LC) (pairs : List (LC × LC)) (fullText : LC) : LC :=
  let base := extractValueFromLines pairs noLabels
  let cands := findAll12 fullText
    ++ lines.filterMap (fun line =>
        let compact := filterDigits line
        if compact.length = 12 then some compact else none)
  let best := chooseBestId cands
  if best ≠ [] then best
  else
    match search12 (filterDigits fullText) with
    | some m => if base = [] ∨ (filterDigits base).length < 9 then m else base
    | none => base

/-- The date-of-birth label list. -/
def dobLabels : List LC := [toL "ngay sinh", toL "date of birth"]

/-- The label-anchored loop of section 2 of `parse_data` (date of birth):
in-line slash/dash date, in-line compact date, then the same two on the
next line; the scan continues past label lines that yield no date. -/
def dobLabeledOf : List (LC × LC) → LC
  | [] => []
  | (line, nline) :: rest =>
    if hasAnyLabel nline dobLabels then
      let d1 := normalizeDateText line
      if d1 ≠ [] then d1
      else
        let d2 := normalizeCompactDate line
        if d2 ≠ [] then d2
        else
          match rest.head? with
          | some (next, _) =>
            let d3 := normalizeDateText next
            if d3 ≠ [] then d3
            else
              let d4 := normalizeCompactDate next
              if d4 ≠ [] then d4
              else dobLabeledOf rest
          | none => dobLabeledOf rest
    else dobLabeledOf rest

/-- Section 2 of `parse_data` with its whole-document fallbacks. -/
def dobOf (pairs : List (LC × LC)) (fullText : LC) : LC :=
  let d := dobLabeledOf pairs
  if d ≠ [] then d
  else
    let f := normalizeDateText fullText
    if f ≠ [] then f else normalizeCompactDate fullText

/-- Whole-word occurrence scan, modelling `re.search(r'\btok\b', s)` for a
token made of word characters. -/
def containsWordAux (tok : LC) : Option Char → LC → Bool
  | _, [] => false
  | prev, c :: t =>
    (wordBdryOk prev && tok.isPrefixOf (c :: t)
      && (match (c :: t).drop tok.length with
          | [] => true
          | d :: _ => !isWordCharM d))
    || containsWordAux tok (some c) t

/-- Whole-word containment. -/
def containsWord (tok s : LC) : Bool := containsWordAux tok none s

/-- The regex `\bnam\b|\bmale\b` as a Boolean test. -/
def hasNamTok (s : LC) : Bool := containsWord (toL "nam") s || containsWord (toL "male") s

/-- The regex `\bnu\b|\bfemale\b` as a Boolean test. -/
def hasNuTok (s : LC) : Bool := containsWord (toL "nu") s || containsWord (toL "female") s

/-- Section 3 of `parse_data` (sex): the label-scoped pass followed by the
whole-document pass that only fills an empty result. -/
def sexOf (pairs : List (LC × LC)) (nfull : LC) : LC :=
  let v := extractValueFromLines pairs [toL "gioi tinh", toL "sex"]
  let ns := normalizeText v
  let s1 := if hasNamTok ns then toL "Nam" else if hasNuTok ns then toL "Nữ" else []
  if hasNamTok nfull then (if s1 = [] then toL "Nam" else s1)
  else if hasNuTok nfull then (if s1 = [] then toL "Nữ" else s1)
  else s1

/-- The full-name label list. -/
def nameLabels : List LC := [toL "ho va ten", toL "ho ten", toL "full name"]

/-- The strip set `" :-"` of the full-name next-line candidate. -/
def nameSet : List Char := [' ', ':', '-']

/-- The label-anchored loop of section 4 of `parse_data` (full name). -/
def fullnameLabeledOf : List (LC × LC) → LC
  | [] => []
  | (line, nline) :: rest =>
    if hasAnyLabel nline nameLabels then
      let inline := extractAfterLabel line nameLabels
      let c1 := cleanValue inline
      if inline ≠ [] ∧ ¬isNoiseOrLabel c1 then c1
      else
        match rest.head? with
        | some (next, _) =>
          let cc := cleanValue (trimSet nameSet next)
          if cc ≠ [] ∧ ¬cc.any isDigitM ∧ ¬isNoiseOrLabel cc then cc
          else fullnameLabeledOf rest
        | none => fullnameLabeledOf rest
    else fullnameLabeledOf rest

/-- The fallback test of section 4: lines longer than four characters
matching `^[A-ZÀ-Ỹ\s]+$` (ASCII uppercase, the code-point range U+00C0 to
U+1EF8, or whitespace). -/
def isUpperNameLine (line : LC) : Bool :=
  4 < line.length
    && line.all (fun c => isUpperAZ c || (0xC0 ≤ c.toNat && c.toNat ≤ 0x1EF8) || isSpaceM c)

/-- Section 4 of `parse_data` (full name). -/
def fullnameOf (lines : List LC) (pairs : List (LC × LC)) : LC :=
  let f := fullnameLabeledOf pairs
  if f ≠ [] then f
  else
    match lines.find? isUpperNameLine with
    | some l => l
    | none => []

/-- The nationality label list. -/
def natLabels : List LC := [toL "quoc tich", toL "nationality"]

/-- The stop list of the nationality segment fallback. -/
def natSegStops : List LC :=
  [toL "que quan", toL "place of origin", toL "noi thuong tru", toL "residence",
   toL "gioi tinh", toL "sex", toL "ngay sinh", toL "date of birth",
   toL "ho va ten", toL "full name"]

/-- The per-line segment fallback of section 5 of `parse_data`. -/
def natSegFallback : List LC → LC
  | [] => []
  | l :: t =>
    let c := extractSegmentByLabels l natLabels natSegStops
    if c ≠ [] then cleanValue c else natSegFallback t

/-- The key part `(?:quoc\s*tich|nationality)` of the trailing nationality
regex. -/
def natKeyMatch (s : LC) : Option LC :=
  firstSomeO [matchSeq [toL "quoc", toL "tich"] s, matchSeq [toL "nationality"] s]

/-- Scan for the trailing nationality regex: key, `\s*`, a run of colon,
slash or dash characters, `\s*`, then the captured group of two to thirty
lowercase-ASCII-or-space characters (greedy). -/
def searchNatAux : LC → Option LC
  | [] => none
  | c :: t =>
    match natKeyMatch (c :: t) with
    | some r =>
      let r1 := skipWs ((skipWs r).dropWhile (fun d => d = ':' || d = '/' || d = '-'))
      let grp := (r1.takeWhile (fun d => isLowerAZ d || isSpaceM d)).take 30
      if 2 ≤ grp.length then some grp else searchNatAux t
    | none => searchNatAux t

/-- One stop-token alternative of the tail-deleting sub in section 5,
including its trailing word boundary. -/
def stopTokHit (s : LC) : Bool :=
  [[toL "gioi", toL "tinh"], [toL "sex"], [toL "que", toL "quan"],
   [toL "place", toL "of", toL "origin"], [toL "noi", toL "thuong", toL "tru"],
   [toL "residence"], [toL "ngay", toL "sinh"], [toL "date", toL "of", toL "birth"]].any
    (fun alt =>
      match matchSeq alt s with
      | some r =>
        match r with
        | [] => true
        | d :: _ => !isWordCharM d
      | none => false)

/-- Model of the sub deleting everything from the first word-boundary
stop token onward (the regex ends in `.*$`). -/
def stripStopTailAux : Option Char → LC → LC
  | _, [] => []
  | prev, c :: t =>
    if wordBdryOk prev && stopTokHit (c :: t) then []
    else c :: stripStopTailAux (some c) t

/-- Model of Python `str.title` on the lowercase-ASCII-and-space strings
the nationality regex produces. -/
def titleAux : Bool → LC → LC
  | _, [] => []
  | prevAlpha, c :: t =>
    let isA := isLowerAZ c || isUpperAZ c
    (if isA then (if prevAlpha then asciiToLower c else asciiToUpper c) else c)
      :: titleAux isA t

/-- Section 5 of `parse_data` (nationality). -/
def nationalityOf (lines : List LC) (pairs : List (LC × LC)) (nfull : LC) : LC :=
  let n0 := cleanValue (extractValueFromLines pairs natLabels)
  let n1 := if n0 = [] then natSegFallback lines else n0
  let n2 :=
    if n1 ≠ [] then
      match searchNatAux (normalizeText n1) with
      | some grp =>
        let cand := trimWs (stripStopTailAux none (trimWs grp))
        if cand ≠ [] then titleAux false cand else n1
      | none => n1
    else n1
  let n3 :=
    if n2 ≠ [] then
      let nn := normalizeText n2
      if containsSub (toL "viet nam") nn || containsSub (toL "vietnam") nn then
        toL "Việt Nam"
      else if containsSub (toL "quoc tich") nn || containsSub (toL "nationality") nn
          || nn = toL "nam" || nn = toL "male" then
        toL "Việt Nam"
      else n2
    else n2
  if n3 = [] ∧ containsSub (toL "viet nam") nfull then toL "Việt Nam" else n3

/-- The origin label list. -/
def originLabels : List LC := [toL "que quan", toL "place of origin"]

/-- The origin stop-label list. -/
def originStops : List LC :=
  [toL "co gia tri den", toL "quoc tich", toL "gioi tinh", toL "ngay sinh",
   toL "ho va ten", toL "noi thuong tru", toL "thuong tru", toL "id no",
   toL "so dinh danh", toL "can cuoc"]

/-- The residence label list. -/
def residenceLabels : List LC :=
  [toL "noi thuong tru", toL "thuong tru", toL "permanent residence", toL "residence"]

/-- The residence stop-label list. -/
def residenceStops : List LC :=
  [toL "co gia tri den", toL "co gia tri", toL "quoc tich", toL "gioi tinh",
   toL "ngay sinh", toL "ho va ten", toL "que quan", toL "id no",
   toL "so dinh danh", toL "can cuoc"]

/-- The strip set `" ,.-"` of the accumulated address parts. -/
def partSet : List Char := [' ', ',', '.', '-']

/-- The inner while loop of the origin/residence sections: absorb lines
until a stop label, a date line, or the part bound (checked after each
append, as in the source). -/
def collectParts (stops : List LC) (maxP : Nat) : List LC → List (LC × LC) → List LC
  | parts, [] => parts
  | parts, (line, nline) :: rest =>
    if hasAnyLabel nline stops then parts
    else if (searchDateGroups ['/', '-'] line).isSome then parts
    else
      let cp := cleanValue (trimSet partSet line)
      let parts' := if cp ≠ [] ∧ ¬isNoiseOrLabel cp then parts ++ [cp] else parts
      if maxP ≤ parts'.length then parts' else collectParts stops maxP parts' rest

/-- Section 6 of `parse_data` (place of origin): the first origin-label
line starts the accumulation, and the combined value is kept only if it
has the location shape (comma/semicolon or at least ten characters) and
is not card boilerplate. -/
def originOf : List (LC × LC) → LC
  | [] => []
  | (line, nline) :: rest =>
    if hasAnyLabel nline originLabels then
      let inline := cleanValue (extractAfterLabel line originLabels)
      let parts0 := if inline ≠ [] ∧ ¬isNoiseOrLabel inline then [inline] else []
      let parts := collectParts originStops 5 parts0 rest
      if parts ≠ [] then
        let combined := cleanValue (List.intercalate (toL ", ") parts)
        let no' := normalizeText combined
        if (combined.contains ',' || combined.contains ';' || 10 ≤ combined.length)
            ∧ ¬containsSub (toL "citizen identity card") no' then
          dedupePlaceText combined
        else []
      else []
    else originOf rest

/-- The residence accumulation (same shape as the origin one, with its own
labels, stop set and bound of six, and no location-shape check). -/
def residenceRawOf : List (LC × LC) → LC
  | [] => []
  | (line, nline) :: rest =>
    if hasAnyLabel nline residenceLabels then
      let inline := cleanValue (extractAfterLabel line residenceLabels)
      let parts0 := if inline ≠ [] ∧ ¬isNoiseOrLabel inline then [inline] else []
      let parts := collectParts residenceStops 6 parts0 rest
      if parts ≠ [] then cleanValue (List.intercalate (toL ", ") parts) else []
    else residenceRawOf rest

/-- Case-insensitive literal prefix (the `re.IGNORECASE` flag of the
residence prefix sub). -/
def ciPfx : LC → LC → Option LC
  | [], s => some s
  | _ :: _, [] => none
  | w :: ws, c :: t => if toLowerM c = w then ciPfx ws t else none

/-- Case-insensitive word sequence with `\s*` between the words. -/
def ciSeq : List LC → LC → Option LC
  | [], s => some s
  | [w], s => ciPfx w s
  | w :: ws, s => (ciPfx w s).bind (fun s' => ciSeq ws (skipWs s'))

/-- Model of the anchored residence prefix sub: `\s*`, digits, `\s*`, one
of the residence label phrases (case-insensitively, `\s*` inside), a run
of colon/semicolon/comma/dash, `\s*`; returns the remainder on a match. -/
def matchResPfx (s : LC) : Option LC :=
  let s1 := skipWs ((skipWs s).dropWhile isDigitM)
  match firstSomeO
      [ciSeq [toL "place", toL "of", toL "residence"] s1,
       ciSeq [toL "permanent", toL "residence"] s1,
       ciSeq [toL "residence"] s1] with
  | some r =>
    some (skipWs (r.dropWhile (fun c => c = ':' || c = ';' || c = ',' || c = '-')))
  | none => none

/-- Section 7 of `parse_data` (residence), including the post-hoc label
prefix strip applied to a nonempty value. -/
def residenceOf (pairs : List (LC × LC)) : LC :=
  let r := residenceRawOf pairs
  if r ≠ [] then
    trimSet stripSet (match matchResPfx r with | some rest => rest | none => r)
  else r

/-- The label-anchored expiry loop (same shape as the date-of-birth one,
with the expiry labels). -/
def expiryLabeledOf : List (LC × LC) → LC
  | [] => []
  | (line, nline) :: rest =>
    if containsSub (toL "co gia tri den") nline || containsSub (toL "valid until") nline
        || containsSub (toL "expiry") nline then
      let d1 := normalizeDateText line
      if d1 ≠ [] then d1
      else
        let d2 := normalizeCompactDate line
        if d2 ≠ [] then d2
        else
          match rest.head? with
          | some (next, _) =>
            let d3 := normalizeDateText next
            if d3 ≠ [] then d3
            else
              let d4 := normalizeCompactDate next
              if d4 ≠ [] then d4
              else expiryLabeledOf rest
          | none => expiryLabeledOf rest
    else expiryLabeledOf rest

/-- The normalized nonempty slash/dash dates of the whole document. -/
def datesOf (fullText : LC) : List LC :=
  ((findAllDates fullText).map normalizeDateText).filter (fun d => d ≠ [])

/-- The reversed scan of the expiry fallback: the last date differing from
the date of birth, or empty. -/
def lastDateDiffering (dates : List LC) (dob : LC) : LC :=
  ((dates.reverse).find? (fun d => d ≠ dob)).getD []

/-- Section 8 of `parse_data` (expiry date): label-anchored value first,
else the reversed-dates fallback, which only runs when the document
contains more than one date. -/
def expiryOf (pairs : List (LC × LC)) (fullText dob : LC) : LC :=
  let e := expiryLabeledOf pairs
  if e ≠ [] then e
  else if 1 < (datesOf fullText).length then lastDateDiffering (datesOf fullText) dob
  else []

/-- A text observation of the recognition engine: bounding box, text,
confidence (`float` modelled as `ℚ`). -/
structure RecObs where
  bbox : List (ℚ × ℚ)
  text : LC
  conf : ℚ

/-- The two input shapes `parse_data` accepts: a list of structured
observations (the first element a tuple) or a list of plain strings. -/
inductive ParseInput where
  | structured : List RecObs → ParseInput
  | plain : List LC → ParseInput

/-- The line extraction at the top of `parse_data`: structured items keep
only confidence at least 0.25 and contribute their stripped text; plain
items are stripped as they are. -/
def linesOf : ParseInput → List LC
  | .structured items =>
    (items.filter (fun o => (25 : ℚ)/100 ≤ o.conf)).map (fun o => trimWs o.text)
  | .plain ls => ls.map trimWs

/-- The (original, normalized) line pairs `parse_data` works on. -/
def mkPairs (lines : List LC) : List (LC × LC) :=
  lines.map (fun l => (l, normalizeText l))

/-- Model of `IDCardOCR.parse_data` on the extracted lines.  The Python
code threads one mutable dict through the sections; no section reads a
field another section writes except the documented flows (expiry reads the
date of birth, the residence default reads the place of origin), so the
final dict is exactly this association list in insertion order: the eight
canonical keys initialized first, then the twelve alias keys appended by
the final block. -/
def parseDataLines (lines : List LC) : List (String × String) :=
  let pairs := mkPairs lines
  let fullText := List.intercalate (toL " ") lines
  let nfull := normalizeText fullText
  let no' := noOf lines pairs fullText
  let dob := dobOf pairs fullText
  let sex := sexOf pairs nfull
  let fullname := fullnameOf lines pairs
  let nationality := nationalityOf lines pairs nfull
  let origin := originOf pairs
  let residence0 := residenceOf pairs
  let expiry := expiryOf pairs fullText dob
  let residence := if residence0 = [] then origin else residence0
  [("fullname", String.mk fullname), ("date_of_birth", String.mk dob),
   ("sex", String.mk sex), ("nationality", String.mk nationality),
   ("place_of_origin", String.mk origin), ("no", String.mk no'),
   ("residence", String.mk residence), ("expiry_date", String.mk expiry),
   ("full_name", String.mk fullname), ("id_number", String.mk no'),
   ("dob", String.mk dob), ("gender", String.mk sex),
   ("ho_va_ten", String.mk fullname), ("so", String.mk no'),
   ("ngay_sinh", String.mk dob), ("gioi_tinh", String.mk sex),
   ("quoc_tich", String.mk nationality), ("que_quan", String.mk origin),
   ("noi_thuong_tru", String.mk residence), ("co_gia_tri_den", String.mk expiry)]

/-- Model of `IDCardOCR.parse_data`. -/
def parseData (input : ParseInput) : List (String × String) :=
  parseDataLines (linesOf input)

/-- The reading-order key of `extract_text`: (min y, min x) of the
bounding box. -/
def readKeyOf (o : RecObs) : ℚ × ℚ :=
  let minL : List ℚ → ℚ := fun l =>
    match l with
    | [] => 0
    | a :: t => t.foldl min a
  (minL (o.bbox.map Prod.snd), minL (o.bbox.map Prod.fst))

/-- Replace-or-append into the `best_by_text` mapping, keeping the entry
position and replacing only on strictly higher confidence. -/
def setBest : List (LC × RecObs) → LC → RecObs → List (LC × RecObs)
  | [], k, o => [(k, o)]
  | (k', o') :: t, k, o =>
    if k' = k then (if o'.conf < o.conf then (k, o) :: t else (k', o') :: t)
    else (k', o') :: setBest t k o

/-- The deduplication fold of `extract_text`: drop empty-text or
low-confidence items, key the rest by normalized text, keep the
highest-confidence item per key (insertion order preserved). -/
def dedupFold (results : List RecObs) : List (LC × RecObs) :=
  results.foldl
    (fun acc o =>
      let text := trimWs o.text
      if text = [] ∨ o.conf < (2 : ℚ)/10 then acc
      else setBest acc (normalizeText text) o)
    []

/-- Lexicographic reading-order comparison. -/
def readLt (a b : ℚ × ℚ) : Prop := a.1 < b.1 ∨ (a.1 = b.1 ∧ a.2 < b.2)

instance (a b : ℚ × ℚ) : Decidable (readLt a b) := by
  unfold readLt
  infer_instance

/-- Stable insertion for the reading-order sort (an element is placed
after every element whose key is not strictly greater, which is Python's
stable `list.sort`). -/
def insertRead (o : RecObs) : List RecObs → List RecObs
  | [] => [o]
  | p :: t =>
    if readLt (readKeyOf o) (readKeyOf p) then o :: p :: t
    else p :: insertRead o t

/-- Model of `IDCardOCR.extract_text` downstream of the recognition
engine: `results` stands for the union of the reader's output over the
image variants, and the model performs the source's deduplication and
reading-order sort. -/
def extractText (results : List RecObs) : List RecObs :=
  ((dedupFold results).map Prod.snd).foldl (fun acc o => insertRead o acc) []

/-- Python dict assignment `d[k] = v` on an insertion-ordered association
list: update in place if the key exists, else append. -/
def dset : List (String × String) → String → String → List (String × String)
  | [], k, v => [(k, v)]
  | (k', v') :: t, k, v =>
    if k' = k then (k, v) :: t else (k', v') :: dset t k v

/-- Python `d.get(k, "")`. -/
def dgetD (d : List (String × String)) (k : String) : String :=
  (d.lookup k).getD ""

/-- Model of `app.apply_template_aliases`: the twelve alias assignments in
source order (each reads the current dict, but only canonical keys are
read and only alias keys are written). -/
def applyTemplateAliases (d : List (String × String)) : List (String × String) :=
  let d1 := dset d "full_name" (dgetD d "fullname")
  let d2 := dset d1 "id_number" (dgetD d1 "no")
  let d3 := dset d2 "dob" (dgetD d2 "date_of_birth")
  let d4 := dset d3 "gender" (dgetD d3 "sex")
  let d5 := dset d4 "ho_va_ten" (dgetD d4 "fullname")
  let d6 := dset d5 "so" (dgetD d5 "no")
  let d7 := dset d6 "ngay_sinh" (dgetD d6 "date_of_birth")
  let d8 := dset d7 "gioi_tinh" (dgetD d7 "sex")
  let d9 := dset d8 "quoc_tich" (dgetD d8 "nationality")
  let d10 := dset d9 "que_quan" (dgetD d9 "place_of_origin")
  let d11 := dset d10 "noi_thuong_tru" (dgetD d10 "residence")
  dset d11 "co_gia_tri_den" (dgetD d11 "expiry_date")

/-- Python `s.split('|')` (keeps empty parts; the empty string yields one
empty part). -/
def splitBarAux (acc : LC) : LC → List LC
  | [] => [acc.reverse]
  | c :: t => if c = '|' then acc.reverse :: splitBarAux [] t else splitBarAux (c :: acc) t

/-- Modelled from the spec: the QR date formatter of `IDCardQRReader`
(imported by src/app.py from id_card_ocr but not present under src/).
Per §4.5, an eight-character compact date is reformatted to DD/MM/YYYY;
an invalid length gives the empty string and no range validation is
performed. -/
def qrFormatDate (s : LC) : LC :=
  match s with
  | [a, b, c, d, e, f, g, h] => [a, b, '/', c, d, '/', e, f, g, h]
  | _ => []

/-- Modelled from the spec: the QR payload parser of `IDCardQRReader`
(not present under src/).  Per §4.5 the payload is the fixed seven-field
record `idNumber|oldId|fullName|DOBddmmyyyy|sex|residence|issueDateddmmyyyy`;
fewer than seven `|`-separated parts raise a format error carrying the
actual field count; nationality defaults to `"Việt Nam"` and
`place_of_origin` is set equal to `residence`. -/
def parseQR (s : LC) : Except Nat (List (String × String)) :=
  let parts := splitBarAux [] s
  if parts.length < 7 then .error parts.length
  else
    let g : Nat → LC := fun i => parts.getD i []
    .ok [("no", String.mk (g 0)), ("old_id", String.mk (g 1)),
         ("fullname", String.mk (g 2)),
         ("date_of_birth", String.mk (qrFormatDate (g 3))),
         ("sex", String.mk (g 4)), ("residence", String.mk (g 5)),
         ("issue_date", String.mk (qrFormatDate (g 6))),
         ("nationality", "Việt Nam"),
         ("place_of_origin", String.mk (g 5))]

/-! Helper lemmas about digits and the compact-date parser. -/

theorem digitChar_isDigitM {k : Nat} (h : k < 10) : isDigitM (Nat.digitChar k) = true := by
  interval_cases k <;> decide

theorem digitChar_toNat {k : Nat} (h : k < 10) : (Nat.digitChar k).toNat = 48 + k := by
  interval_cases k <;> decide

theorem toNatL_two (a b : Char) : toNatL [a, b] = (a.toNat - 48) * 10 + (b.toNat - 48) := by
  simp [toNatL, List.foldl]

theorem toNatL_four (a b c d : Char) :
    toNatL [a, b, c, d]
      = (((a.toNat - 48) * 10 + (b.toNat - 48)) * 10 + (c.toNat - 48)) * 10 + (d.toNat - 48) := by
  simp [toNatL, List.foldl]

theorem normalizeCompactDate_eight (a b c d e f g h : Char)
    (ha : isDigitM a = true) (hb : isDigitM b = true) (hc : isDigitM c = true)
    (hd : isDigitM d = true) (he : isDigitM e = true) (hf : isDigitM f = true)
    (hg : isDigitM g = true) (hh : isDigitM h = true) :
    normalizeCompactDate [a, b, c, d, e, f, g, h]
      = if 1 ≤ toNatL [a, b] ∧ toNatL [a, b] ≤ 31 ∧ 1 ≤ toNatL [c, d]
           ∧ toNatL [c, d] ≤ 12 ∧ 1900 ≤ toNatL [e, f, g, h] ∧ toNatL [e, f, g, h] ≤ 2100 then
          pad2 (toNatL [a, b]) ++ '/' :: pad2 (toNatL [c, d]) ++ '/' :: pad4 (toNatL [e, f, g, h])
        else [] := by
  simp [normalizeCompactDate, findCompactAux, wordBdryOk, ha, hb, hc, hd, he, hf, hg, hh]

/-- C4: `_normalize_compact_date` maps the eight-digit string DDMMYYYY of
any in-range day/month/year (day 1–31, month 1–12, year 1900–2100) to the
zero-padded `DD/MM/YYYY`, and maps any eight-digit string whose day, month
or year component is out of those ranges to the empty string. -/
theorem c4_compact_date_roundtrip :
    (∀ d m y : Nat, 1 ≤ d → d ≤ 31 → 1 ≤ m → m ≤ 12 → 1900 ≤ y → y ≤ 2100 →
      normalizeCompactDate (pad2 d ++ pad2 m ++ pad4 y)
        = pad2 d ++ '/' :: pad2 m ++ '/' :: pad4 y)
    ∧ (∀ a b c d e f g h : Char,
        isDigitM a = true → isDigitM b = true → isDigitM c = true → isDigitM d = true →
        isDigitM e = true → isDigitM f = true → isDigitM g = true → isDigitM h = true →
        ¬(1 ≤ toNatL [a, b] ∧ toNatL [a, b] ≤ 31 ∧ 1 ≤ toNatL [c, d] ∧ toNatL [c, d] ≤ 12
           ∧ 1900 ≤ toNatL [e, f, g, h] ∧ toNatL [e, f, g, h] ≤ 2100) →
        normalizeCompactDate [a, b, c, d, e, f, g, h] = []) := by
  constructor
  · intro d m y hd1 hd2 hm1 hm2 hy1 hy2
    have hmod : ∀ n : Nat, n % 10 < 10 := fun n => Nat.mod_lt _ (by norm_num)
    have hlist : pad2 d ++ pad2 m ++ pad4 y
        = [Nat.digitChar (d / 10 % 10), Nat.digitChar (d % 10),
           Nat.digitChar (m / 10 % 10), Nat.digitChar (m % 10),
           Nat.digitChar (y / 1000 % 10), Nat.digitChar (y / 100 % 10),
           Nat.digitChar (y / 10 % 10), Nat.digitChar (y % 10)] := by
      simp [pad2, pad4]
    have hab : toNatL [Nat.digitChar (d / 10 % 10), Nat.digitChar (d % 10)] = d := by
      rw [toNatL_two, digitChar_toNat (hmod _), digitChar_toNat (hmod _)]
      omega
    have hcd : toNatL [Nat.digitChar (m / 10 % 10), Nat.digitChar (m % 10)] = m := by
      rw [toNatL_two, digitChar_toNat (hmod _), digitChar_toNat (hmod _)]
      omega
    have hef : toNatL [Nat.digitChar (y / 1000 % 10), Nat.digitChar (y / 100 % 10),
        Nat.digitChar (y / 10 % 10), Nat.digitChar (y % 10)] = y := by
      rw [toNatL_four, digitChar_toNat (hmod _), digitChar_toNat (hmod _),
        digitChar_toNat (hmod _), digitChar_toNat (hmod _)]
      omega
    rw [hlist, normalizeCompactDate_eight _ _ _ _ _ _ _ _
      (digitChar_isDigitM (hmod _)) (digitChar_isDigitM (hmod _))
      (digitChar_isDigitM (hmod _)) (digitChar_isDigitM (hmod _))
      (digitChar_isDigitM (hmod _)) (digitChar_isDigitM (hmod _))
      (digitChar_isDigitM (hmod _)) (digitChar_isDigitM (hmod _)),
      hab, hcd, hef, if_pos ⟨hd1, hd2, hm1, hm2, hy1, hy2⟩]
  · intro a b c d e f g h ha hb hc hd he hf hg hh hne
    rw [normalizeCompactDate_eight a b c d e f g h ha hb hc hd he hf hg hh, if_neg hne]

/-- C3: the QR pipeline splits on the bar, errors with the actual part
count whenever fewer than seven parts result (five fields report five),
and on success formats the two compact dates positionally (exactly eight
characters are reformatted, any other length yields the empty string, with
no range validation), defaults the nationality to "Việt Nam", and sets
place_of_origin equal to residence. -/
theorem c3_parse_qr :
    (∀ s : LC, (splitBarAux [] s).length < 7 →
        parseQR s = .error (splitBarAux [] s).length)
    ∧ parseQR (toL "a|b|c|d|e") = .error 5
    ∧ (∀ s : LC, 7 ≤ (splitBarAux [] s).length →
        ∃ r, parseQR s = .ok r
          ∧ r.lookup "place_of_origin" = r.lookup "residence"
          ∧ r.lookup "nationality" = some "Việt Nam"
          ∧ r.lookup "date_of_birth"
              = some (String.mk (qrFormatDate ((splitBarAux [] s).getD 3 [])))
          ∧ r.lookup "issue_date"
              = some (String.mk (qrFormatDate ((splitBarAux [] s).getD 6 []))))
    ∧ (∀ a b c d e f g h : Char,
        qrFormatDate [a, b, c, d, e, f, g, h] = [a, b, '/', c, d, '/', e, f, g, h])
    ∧ (∀ s : LC, s.length ≠ 8 → qrFormatDate s = []) := by
  refine ⟨?_, rfl, ?_, fun a b c d e f g h => rfl, ?_⟩
  · intro s h
    simp only [parseQR]
    rw [if_pos h]
  · intro s h
    have hok : parseQR s = Except.ok
        [("no", String.mk ((splitBarAux [] s).getD 0 [])),
         ("old_id", String.mk ((splitBarAux [] s).getD 1 [])),
         ("fullname", String.mk ((splitBarAux [] s).getD 2 [])),
         ("date_of_birth", String.mk (qrFormatDate ((splitBarAux [] s).getD 3 []))),
         ("sex", String.mk ((splitBarAux [] s).getD 4 [])),
         ("residence", String.mk ((splitBarAux [] s).getD 5 [])),
         ("issue_date", String.mk (qrFormatDate ((splitBarAux [] s).getD 6 []))),
         ("nationality", "Việt Nam"),
         ("place_of_origin", String.mk ((splitBarAux [] s).getD 5 []))] := by
      simp only [parseQR]
      rw [if_neg (not_lt.mpr h)]
    exact ⟨_, hok, rfl, rfl, rfl, rfl⟩
  · intro s h
    rcases s with _ | ⟨a, s⟩; · rfl
    rcases s with _ | ⟨b, s⟩; · rfl
    rcases s with _ | ⟨c, s⟩; · rfl
    rcases s with _ | ⟨d, s⟩; · rfl
    rcases s with _ | ⟨e, s⟩; · rfl
    rcases s with _ | ⟨f, s⟩; · rfl
    rcases s with _ | ⟨g, s⟩; · rfl
    rcases s with _ | ⟨h8, s⟩; · rfl
    rcases s with _ | ⟨i, s⟩
    · exact absurd rfl h
    · rfl

/-- Witness for `c3_parse_qr`: the short-payload error at a three-field
input, the success shape at the specification's sample payload, and the
formatter at a seven-character string. -/
theorem c3_parse_qr_witness :
    parseQR (toL "x|y|z") = .error 3
    ∧ (∃ r, parseQR (toL "049205000868|206454491|Đặng Bảo Khoa|01072005|Nam|Hòa Nam|11042021")
          = .ok r
        ∧ r.lookup "place_of_origin" = r.lookup "residence"
        ∧ r.lookup "nationality" = some "Việt Nam"
        ∧ r.lookup "date_of_birth" = some (String.mk (qrFormatDate
            ((splitBarAux []
              (toL "049205000868|206454491|Đặng Bảo Khoa|01072005|Nam|Hòa Nam|11042021")).getD 3 [])))
        ∧ r.lookup "issue_date" = some (String.mk (qrFormatDate
            ((splitBarAux []
              (toL "049205000868|206454491|Đặng Bảo Khoa|01072005|Nam|Hòa Nam|11042021")).getD 6 []))))
    ∧ qrFormatDate (toL "1234567") = [] := by
  refine ⟨c3_parse_qr.1 (toL "x|y|z") (by decide), ?_, ?_⟩
  · exact c3_parse_qr.2.2.1
      (toL "049205000868|206454491|Đặng Bảo Khoa|01072005|Nam|Hòa Nam|11042021") (by decide)
  · exact c3_parse_qr.2.2.2.2 (toL "1234567") (by decide)

/-! Helper lemmas for the alias composition. -/

theorem lookup_dset_self (d : List (String × String)) (k v : String) :
    (dset d k v).lookup k = some v := by
  induction d with
  | nil => simp [dset, List.lookup]
  | cons p t ih =>
    rcases p with ⟨k', v'⟩
    by_cases h : k' = k
    · simp [dset, h, List.lookup]
    · have hb : (k == k') = false := beq_eq_false_iff_ne.mpr (Ne.symm h)
      simp [dset, h, List.lookup, hb, ih]

theorem lookup_dset_ne (d : List (String × String)) {k k' : String} (v : String)
    (h : k ≠ k') : (dset d k' v).lookup k = d.lookup k := by
  have hb : (k == k') = false := beq_eq_false_iff_ne.mpr h
  induction d with
  | nil => simp [dset, List.lookup, hb]
  | cons p t ih =>
    rcases p with ⟨k'', v''⟩
    by_cases h2 : k'' = k'
    · subst h2
      simp [dset, List.lookup, hb]
    · simp only [dset, if_neg h2, List.lookup]
      cases hkk : k == k'' <;> simp [ih]

/-- C9: after alias composition every one of the twelve alias keys holds
exactly its mapped canonical field's value — for `apply_template_aliases`
on any record (the canonical value read through `get` with default ""),
and for the final block of `parse_data` on any input. -/
theorem c9_alias_composition :
    (∀ d : List (String × String),
      (applyTemplateAliases d).lookup "full_name" = some (dgetD d "fullname")
      ∧ (applyTemplateAliases d).lookup "id_number" = some (dgetD d "no")
      ∧ (applyTemplateAliases d).lookup "dob" = some (dgetD d "date_of_birth")
      ∧ (applyTemplateAliases d).lookup "gender" = some (dgetD d "sex")
      ∧ (applyTemplateAliases d).lookup "ho_va_ten" = some (dgetD d "fullname")
      ∧ (applyTemplateAliases d).lookup "so" = some (dgetD d "no")
      ∧ (applyTemplateAliases d).lookup "ngay_sinh" = some (dgetD d "date_of_birth")
      ∧ (applyTemplateAliases d).lookup "gioi_tinh" = some (dgetD d "sex")
      ∧ (applyTemplateAliases d).lookup "quoc_tich" = some (dgetD d "nationality")
      ∧ (applyTemplateAliases d).lookup "que_quan" = some (dgetD d "place_of_origin")
      ∧ (applyTemplateAliases d).lookup "noi_thuong_tru" = some (dgetD d "residence")
      ∧ (applyTemplateAliases d).lookup "co_gia_tri_den" = some (dgetD d "expiry_date"))
    ∧ (∀ input : ParseInput,
      (parseData input).lookup "full_name" = (parseData input).lookup "fullname"
      ∧ (parseData input).lookup "id_number" = (parseData input).lookup "no"
      ∧ (parseData input).lookup "dob" = (parseData input).lookup "date_of_birth"
      ∧ (parseData input).lookup "gender" = (parseData input).lookup "sex"
      ∧ (parseData input).lookup "ho_va_ten" = (parseData input).lookup "fullname"
      ∧ (parseData input).lookup "so" = (parseData input).lookup "no"
      ∧ (parseData input).lookup "ngay_sinh" = (parseData input).lookup "date_of_birth"
      ∧ (parseData input).lookup "gioi_tinh" = (parseData input).lookup "sex"
      ∧ (parseData input).lookup "quoc_tich" = (parseData input).lookup "nationality"
      ∧ (parseData input).lookup "que_quan" = (parseData input).lookup "place_of_origin"
      ∧ (parseData input).lookup "noi_thuong_tru" = (parseData input).lookup "residence"
      ∧ (parseData input).lookup "co_gia_tri_den" = (parseData input).lookup "expiry_date") := by
  have hne : ∀ (d : List (String × String)) (k k' v : String), (k == k') = false →
      (dset d k' v).lookup k = d.lookup k := fun d k k' v h =>
    lookup_dset_ne d v (by simpa using h)
  constructor
  · intro d
    simp only [applyTemplateAliases, dgetD]
    refine ⟨?_, ?_, ?_, ?_, ?_, ?_, ?_, ?_, ?_, ?_, ?_, ?_⟩ <;>
      simp [lookup_dset_self, hne]
  · intro input
    exact ⟨rfl, rfl, rfl, rfl, rfl, rfl, rfl, rfl, rfl, rfl, rfl, rfl⟩

/-- C7: `parse_data` is a total function (the embedding is a Lean
function, so no input raises), and its output always carries all eight
canonical keys and all twelve alias keys, each bound to a (possibly
empty) string. -/
theorem c7_all_keys_present :
    ∀ input : ParseInput,
      (["fullname", "date_of_birth", "sex", "nationality", "place_of_origin", "no",
        "residence", "expiry_date", "full_name", "id_number", "dob", "gender",
        "ho_va_ten", "so", "ngay_sinh", "gioi_tinh", "quoc_tich", "que_quan",
        "noi_thuong_tru", "co_gia_tri_den"].all
          (fun k => ((parseData input).lookup k).isSome)) = true := by
  intro input
  rfl

/-- The two-pass sex assignment of the source equals the first-success
chain the specification describes. -/
theorem sexOf_eq_chain (pairs : List (LC × LC)) (nfull : LC) :
    sexOf pairs nfull
      = (if hasNamTok (normalizeText (extractValueFromLines pairs
            [toL "gioi tinh", toL "sex"])) then toL "Nam"
        else if hasNuTok (normalizeText (extractValueFromLines pairs
            [toL "gioi tinh", toL "sex"])) then toL "Nữ"
        else if hasNamTok nfull then toL "Nam"
        else if hasNuTok nfull then toL "Nữ"
        else []) := by
  have hNam : (toL "Nam") ≠ [] := by decide
  have hNu : (toL "Nữ") ≠ [] := by decide
  unfold sexOf
  by_cases h1 : hasNamTok (normalizeText (extractValueFromLines pairs
      [toL "gioi tinh", toL "sex"]))
  · by_cases h3 : hasNamTok nfull
    · simp [h1, h3, hNam]
    · by_cases h4 : hasNuTok nfull
      · simp [h1, h3, h4, hNam]
      · simp [h1, h3, h4]
  · by_cases h2 : hasNuTok (normalizeText (extractValueFromLines pairs
        [toL "gioi tinh", toL "sex"]))
    · by_cases h3 : hasNamTok nfull
      · simp [h1, h2, h3, hNu]
      · by_cases h4 : hasNuTok nfull
        · simp [h1, h2, h3, h4, hNu]
        · simp [h1, h2, h3, h4]
    · by_cases h3 : hasNamTok nfull
      · simp [h1, h2, h3]
      · by_cases h4 : hasNuTok nfull
        · simp [h1, h2, h3, h4]
        · simp [h1, h2, h3, h4]

/-- C6: the sex field is the first-success search the specification
describes — nam/male then nu/female as whole words in the label-scoped
value, then (only if both failed there) the same two searches over the
whole normalized document, with output "Nam", "Nữ", or empty when no
token occurs anywhere. -/
theorem c6_sex_resolution :
    ∀ input : ParseInput,
      (parseData input).lookup "sex"
        = some (String.mk (
          if hasNamTok (normalizeText (extractValueFromLines (mkPairs (linesOf input))
              [toL "gioi tinh", toL "sex"])) then toL "Nam"
          else if hasNuTok (normalizeText (extractValueFromLines (mkPairs (linesOf input))
              [toL "gioi tinh", toL "sex"])) then toL "Nữ"
          else if hasNamTok (normalizeText (List.intercalate (toL " ") (linesOf input))) then
            toL "Nam"
          else if hasNuTok (normalizeText (List.intercalate (toL " ") (linesOf input))) then
            toL "Nữ"
          else [])) := by
  intro input
  have h : (parseData input).lookup "sex"
      = some (String.mk (sexOf (mkPairs (linesOf input))
          (normalizeText (List.intercalate (toL " ") (linesOf input))))) := rfl
  rw [h, sexOf_eq_chain]

/-- C2 counterexample: on the claim's own three lines the code leaves
place_of_origin empty — the accumulated value "Hà Nội" (six characters,
no comma) fails the location-shape acceptance check — so the output is
not "Hà Nội". -/
theorem c2_origin_counterexample :
    (parseData (.plain [toL "Quê quán:", toL "Hà Nội", toL "Giới tính: Nam"])).lookup
        "place_of_origin" = some ""
    ∧ ("" : String) ≠ "Hà Nội" := by
  exact ⟨by decide, by decide⟩

/-- C2 (amended): on the lines ["Quê quán:", "Hà Nội", "Giới tính: Nam"]
the multi-line accumulation does halt at the sex stop label — the parts
collected after the label line are exactly ["Hà Nội"], without the sex
line — but the combined value "Hà Nội" has no comma or semicolon and is
shorter than ten characters, so the location-shape check rejects it and
place_of_origin is the empty string (the sex line is still not absorbed:
the sex field itself is parsed as "Nam"). -/
theorem c2_origin_stops_at_label :
    collectParts originStops 5 [] (mkPairs [toL "Hà Nội", toL "Giới tính: Nam"])
        = [toL "Hà Nội"]
    ∧ ¬((toL "Hà Nội").contains ',' || (toL "Hà Nội").contains ';'
        || 10 ≤ (toL "Hà Nội").length)
    ∧ (parseData (.plain [toL "Quê quán:", toL "Hà Nội", toL "Giới tính: Nam"])).lookup
        "place_of_origin" = some ""
    ∧ (parseData (.plain [toL "Quê quán:", toL "Hà Nội", toL "Giới tính: Nam"])).lookup
        "sex" = some "Nam" := by
  refine ⟨by decide, by decide, by decide, by decide⟩

/-- C5 counterexample: a document whose only labelled date is the compact
birth date and whose only slash date "01/01/2000" differs from the
recovered date of birth "01/01/1990".  No expiry-label line yields a
date, the last (and only) document date differs from the date of birth,
yet the code returns an empty expiry_date, because the fallback requires
strictly more than one date. -/
theorem c5_expiry_counterexample :
    expiryLabeledOf (mkPairs [toL "ngay sinh 01011990", toL "01/01/2000"]) = []
    ∧ (parseData (.plain [toL "ngay sinh 01011990", toL "01/01/2000"])).lookup
        "date_of_birth" = some "01/01/1990"
    ∧ lastDateDiffering
        (datesOf (List.intercalate (toL " ")
          [toL "ngay sinh 01011990", toL "01/01/2000"])) (toL "01/01/1990")
        = toL "01/01/2000"
    ∧ (parseData (.plain [toL "ngay sinh 01011990", toL "01/01/2000"])).lookup
        "expiry_date" = some "" := by
  refine ⟨by decide, by decide, by decide, by decide⟩

/-- C5 (amended): when no expiry-label line yields a date, expiry_date
equals the last document date differing from the recovered date of birth
provided the document contains at least two slash/dash dates, and is the
empty string otherwise — in particular it stays empty when the document
holds exactly one date, even if that date differs from the date of
birth. -/
theorem c5_expiry_fallback :
    ∀ input : ParseInput,
      expiryLabeledOf (mkPairs (linesOf input)) = [] →
      (parseData input).lookup "expiry_date"
        = some (String.mk (
          if 1 < (datesOf (List.intercalate (toL " ") (linesOf input))).length then
            lastDateDiffering (datesOf (List.intercalate (toL " ") (linesOf input)))
              (dobOf (mkPairs (linesOf input)) (List.intercalate (toL " ") (linesOf input)))
          else [])) := by
  intro input h
  have hl : (parseData input).lookup "expiry_date"
      = some (String.mk (expiryOf (mkPairs (linesOf input))
          (List.intercalate (toL " ") (linesOf input))
          (dobOf (mkPairs (linesOf input)) (List.intercalate (toL " ") (linesOf input))))) := rfl
  rw [hl]
  simp [expiryOf, h]

/-- Witness for `c5_expiry_fallback` on a label-free two-date document. -/
theorem c5_expiry_fallback_witness :
    expiryLabeledOf (mkPairs (linesOf (.plain [toL "01/01/1990", toL "02/02/1995"]))) = []
    ∧ (parseData (.plain [toL "01/01/1990", toL "02/02/1995"])).lookup "expiry_date"
        = some (String.mk (
          if 1 < (datesOf (List.intercalate (toL " ")
              (linesOf (.plain [toL "01/01/1990", toL "02/02/1995"])))).length then
            lastDateDiffering
              (datesOf (List.intercalate (toL " ")
                (linesOf (.plain [toL "01/01/1990", toL "02/02/1995"]))))
              (dobOf (mkPairs (linesOf (.plain [toL "01/01/1990", toL "02/02/1995"])))
                (List.intercalate (toL " ")
                  (linesOf (.plain [toL "01/01/1990", toL "02/02/1995"]))))
          else [])) :=
  ⟨by decide, c5_expiry_fallback (.plain [toL "01/01/1990", toL "02/02/1995"]) (by decide)⟩

/-- C10: structured observations below confidence 0.25 never contribute to
any parsed field — `parse_data` behaves exactly as if it were handed only
the texts of the observations with confidence at least 0.25 — while
`extract_text`'s own deduplication threshold retains an observation with
confidence in [0.2, 0.25), so the effective confidence floor of the
pipeline is 0.25, not 0.2. -/
theorem c10_confidence_floor :
    (∀ items : List RecObs,
      parseData (.structured items)
        = parseData (.plain ((items.filter (fun o => (25 : ℚ)/100 ≤ o.conf)).map
            (fun o => o.text))))
    ∧ (∀ o : RecObs, trimWs o.text ≠ [] → (2 : ℚ)/10 ≤ o.conf →
        o.conf < (25 : ℚ)/100 →
        extractText [o] = [o] ∧ linesOf (.structured [o]) = []) := by
  constructor
  · intro items
    unfold parseData
    congr 1
    simp [linesOf, List.map_map, Function.comp]
  · intro o h1 h2 h3
    constructor
    · have hc : ¬(trimWs o.text = [] ∨ o.conf < (2 : ℚ)/10) := by
        push_neg
        exact ⟨h1, h2⟩
      simp [extractText, dedupFold, setBest, insertRead, hc]
    · have hc : ¬((25 : ℚ)/100 ≤ o.conf) := not_le.mpr h3
      simp [linesOf, List.filter, hc]

/-- Witness for `c10_confidence_floor` at an observation of confidence
9/40 = 0.225. -/
theorem c10_confidence_floor_witness :
    extractText [⟨[], toL "abc", (9 : ℚ)/40⟩] = [⟨[], toL "abc", (9 : ℚ)/40⟩]
    ∧ linesOf (.structured [⟨[], toL "abc", (9 : ℚ)/40⟩]) = [] :=
  c10_confidence_floor.2 ⟨[], toL "abc", (9 : ℚ)/40⟩ (by decide) (by norm_num)
    (by norm_num)

/-! Helper lemmas for normalization idempotence. -/

theorem stableChar_of_low (x : Char) (hx : x.toNat < 0xC0)
    (hfix : asciiToLower x = x) : stableChar x := by
  refine ⟨?_, ?_, ?_⟩
  · unfold nfkdChar
    rw [if_pos hx]
  · simp only [combiningB, Bool.and_eq_false_iff, decide_eq_false_iff_not, not_le]
    left
    omega
  · unfold toLowerM
    rw [if_pos hx]
    exact hfix

theorem asciiToLower_cases (c : Char) :
    asciiToLower c = c ∨ asciiToLower c ∈ toL "abcdefghijklmnopqrstuvwxyz" := by
  by_cases hm : c ∈ toL "ABCDEFGHIJKLMNOPQRSTUVWXYZ"
  · right
    have hall : ∀ u ∈ toL "ABCDEFGHIJKLMNOPQRSTUVWXYZ",
        asciiToLower u ∈ toL "abcdefghijklmnopqrstuvwxyz" := by decide
    exact hall c hm
  · left
    have h : ∀ u ∈ toL "ABCDEFGHIJKLMNOPQRSTUVWXYZ", c ≠ u := fun u hu he => hm (he ▸ hu)
    unfold asciiToLower
    rw [if_neg (h 'A' (by decide)), if_neg (h 'B' (by decide)),
      if_neg (h 'C' (by decide)), if_neg (h 'D' (by decide)),
      if_neg (h 'E' (by decide)), if_neg (h 'F' (by decide)),
      if_neg (h 'G' (by decide)), if_neg (h 'H' (by decide)),
      if_neg (h 'I' (by decide)), if_neg (h 'J' (by decide)),
      if_neg (h 'K' (by decide)), if_neg (h 'L' (by decide)),
      if_neg (h 'M' (by decide)), if_neg (h 'N' (by decide)),
      if_neg (h 'O' (by decide)), if_neg (h 'P' (by decide)),
      if_neg (h 'Q' (by decide)), if_neg (h 'R' (by decide)),
      if_neg (h 'S' (by decide)), if_neg (h 'T' (by decide)),
      if_neg (h 'U' (by decide)), if_neg (h 'V' (by decide)),
      if_neg (h 'W' (by decide)), if_neg (h 'X' (by decide)),
      if_neg (h 'Y' (by decide)), if_neg (h 'Z' (by decide))]

theorem lower26_ok :
    ∀ l ∈ toL "abcdefghijklmnopqrstuvwxyz", asciiToLower l = l ∧ l.toNat < 0xC0 := by
  decide

theorem stable_asciiToLower (c : Char) (h : c.toNat < 0xC0) :
    stableChar (asciiToLower c) := by
  rcases asciiToLower_cases c with hfix | hmem
  · rw [hfix]
    exact stableChar_of_low c h hfix
  · obtain ⟨hfix, hlow⟩ := lower26_ok _ hmem
    exact stableChar_of_low _ hlow hfix

theorem nfkdChar_untabled (c : Char) (h0 : ¬c.toNat < 0xC0)
    (hm : c ∉ ['à', 'á', 'ê', 'í', 'ộ', 'ớ', 'À', 'Á', 'Ê', 'Í', 'Ộ', 'Ớ']) :
    nfkdChar c = [c] := by
  have h : ∀ u ∈ ['à', 'á', 'ê', 'í', 'ộ', 'ớ', 'À', 'Á', 'Ê', 'Í', 'Ộ', 'Ớ'],
      c ≠ u := fun u hu he => hm (he ▸ hu)
  unfold nfkdChar
  rw [if_neg h0, if_neg (h 'à' (by decide)), if_neg (h 'á' (by decide)),
    if_neg (h 'ê' (by decide)), if_neg (h 'í' (by decide)),
    if_neg (h 'ộ' (by decide)), if_neg (h 'ớ' (by decide)),
    if_neg (h 'À' (by decide)), if_neg (h 'Á' (by decide)),
    if_neg (h 'Ê' (by decide)), if_neg (h 'Í' (by decide)),
    if_neg (h 'Ộ' (by decide)), if_neg (h 'Ớ' (by decide))]

theorem nfkd_out_stable (c d : Char) (hd : d ∈ nfkdChar c) :
    nfkdChar d = [d] ∨ combiningB d = true := by
  by_cases h0 : c.toNat < 0xC0
  · left
    have hc : nfkdChar c = [c] := by
      unfold nfkdChar
      rw [if_pos h0]
    rw [hc, List.mem_singleton] at hd
    subst hd
    exact hc
  · by_cases hm : c ∈ ['à', 'á', 'ê', 'í', 'ộ', 'ớ', 'À', 'Á', 'Ê', 'Í', 'Ộ', 'Ớ']
    · have hall : ∀ u ∈ ['à', 'á', 'ê', 'í', 'ộ', 'ớ', 'À', 'Á', 'Ê', 'Í', 'Ộ', 'Ớ'],
          ∀ e ∈ nfkdChar u, nfkdChar e = [e] ∨ combiningB e = true := by decide
      exact hall c hm d hd
    · left
      have hc := nfkdChar_untabled c h0 hm
      rw [hc, List.mem_singleton] at hd
      subst hd
      exact hc

theorem vietLower_untabled (d : Char)
    (hm : d ∉ ['À', 'Á', 'Ê', 'Í', 'Ộ', 'Ớ', 'Đ']) : vietLower d = d := by
  have h : ∀ u ∈ ['À', 'Á', 'Ê', 'Í', 'Ộ', 'Ớ', 'Đ'], d ≠ u := fun u hu he => hm (he ▸ hu)
  unfold vietLower
  rw [if_neg (h 'À' (by decide)), if_neg (h 'Á' (by decide)),
    if_neg (h 'Ê' (by decide)), if_neg (h 'Í' (by decide)),
    if_neg (h 'Ộ' (by decide)), if_neg (h 'Ớ' (by decide)),
    if_neg (h 'Đ' (by decide))]

theorem stable_toLowerM (d : Char) (h1 : nfkdChar d = [d]) (h2 : combiningB d = false) :
    stableChar (toLowerM d) := by
  by_cases hd : d.toNat < 0xC0
  · unfold toLowerM
    rw [if_pos hd]
    exact stable_asciiToLower d hd
  · have hlow : toLowerM d = vietLower d := by
      unfold toLowerM
      rw [if_neg hd]
    by_cases hm : d ∈ ['À', 'Á', 'Ê', 'Í', 'Ộ', 'Ớ', 'Đ']
    · fin_cases hm
      · exact absurd h1 (by decide)
      · exact absurd h1 (by decide)
      · exact absurd h1 (by decide)
      · exact absurd h1 (by decide)
      · exact absurd h1 (by decide)
      · exact absurd h1 (by decide)
      · rw [hlow]
        decide
    · have hfix := vietLower_untabled d hm
      rw [hlow, hfix]
      exact ⟨h1, h2, by rw [hlow, hfix]⟩

theorem mem_collapseAux {c : Char} :
    ∀ {b : Bool} {u : LC}, c ∈ collapseAux b u → c = ' ' ∨ c ∈ u := by
  intro b u
  induction u generalizing b with
  | nil => intro h; simp [collapseAux] at h
  | cons d t ih =>
    intro h
    by_cases hd : isSpaceM d
    · cases b with
      | true =>
        rw [show collapseAux true (d :: t) = collapseAux true t by simp [collapseAux, hd]] at h
        rcases ih h with h' | h'
        · exact Or.inl h'
        · exact Or.inr (List.mem_cons_of_mem d h')
      | false =>
        rw [show collapseAux false (d :: t) = ' ' :: collapseAux true t by
          simp [collapseAux, hd]] at h
        rcases List.mem_cons.mp h with rfl | h'
        · exact Or.inl rfl
        · rcases ih h' with h'' | h''
          · exact Or.inl h''
          · exact Or.inr (List.mem_cons_of_mem d h'')
    · rw [show collapseAux b (d :: t) = d :: collapseAux false t by
        cases b <;> simp [collapseAux, hd]] at h
      rcases List.mem_cons.mp h with rfl | h'
      · exact Or.inr (List.mem_cons_self c t)
      · rcases ih h' with h'' | h''
        · exact Or.inl h''
        · exact Or.inr (List.mem_cons_of_mem d h'')

theorem mem_dropWhile_sub {c : Char} {p : Char → Bool} :
    ∀ {l : LC}, c ∈ l.dropWhile p → c ∈ l := by
  intro l
  induction l with
  | nil => intro h; simp at h
  | cons d t ih =>
    intro h
    by_cases hd : p d
    · rw [List.dropWhile_cons, if_pos hd] at h
      exact List.mem_cons_of_mem d (ih h)
    · rw [List.dropWhile_cons, if_neg hd] at h
      exact h

theorem mem_trimWs {c : Char} {u : LC} (h : c ∈ trimWs u) : c ∈ u := by
  unfold trimWs at h
  rw [List.mem_reverse] at h
  have h2 := mem_dropWhile_sub h
  rw [List.mem_reverse] at h2
  exact mem_dropWhile_sub h2

theorem nfkdL_fix (l : LC) (h : ∀ c ∈ l, nfkdChar c = [c]) : nfkdL l = l := by
  induction l with
  | nil => rfl
  | cons c t ih =>
    simp only [nfkdL, List.flatMap_cons] at ih ⊢
    rw [h c (List.mem_cons_self c t), ih (fun x hx => h x (List.mem_cons_of_mem c hx))]
    rfl

theorem dropComb_fix (l : LC) (h : ∀ c ∈ l, combiningB c = false) : dropComb l = l := by
  unfold dropComb
  rw [List.filter_eq_self]
  intro a ha
  simp [h a ha]

theorem lowerL_fix (l : LC) (h : ∀ c ∈ l, toLowerM c = c) : lowerL l = l := by
  induction l with
  | nil => rfl
  | cons c t ih =>
    simp only [lowerL, List.map_cons] at ih ⊢
    rw [h c (List.mem_cons_self c t), ih (fun x hx => h x (List.mem_cons_of_mem c hx))]

theorem dropWhile_head_not (p : Char → Bool) :
    ∀ (l : LC) (x : Char), (l.dropWhile p).head? = some x → p x = false := by
  intro l
  induction l with
  | nil => intro x hx; simp at hx
  | cons c t ih =>
    intro x hx
    by_cases h : p c
    · rw [List.dropWhile_cons, if_pos h] at hx
      exact ih x hx
    · rw [List.dropWhile_cons, if_neg h] at hx
      simp only [List.head?_cons, Option.some.injEq] at hx
      subst hx
      simpa using h

theorem dropWhile_eq_self_of_head (p : Char → Bool) (l : LC)
    (h : ∀ x, l.head? = some x → p x = false) : l.dropWhile p = l := by
  cases l with
  | nil => rfl
  | cons c t =>
    have := h c rfl
    rw [List.dropWhile_cons, if_neg (by simp [this])]

theorem trim_head_not (u : LC) :
    ∀ x, (trimWs u).head? = some x → isSpaceM x = false := by
  intro x hx
  apply dropWhile_head_not isSpaceM u
  have hpfx : ((u.dropWhile isSpaceM).reverse.dropWhile isSpaceM).reverse
      <+: u.dropWhile isSpaceM := by
    have h1 := List.dropWhile_suffix (l := (u.dropWhile isSpaceM).reverse) isSpaceM
    have h2 := List.reverse_prefix.mpr h1
    simpa using h2
  obtain ⟨tail, htl⟩ := hpfx
  unfold trimWs at hx
  cases hcase : ((u.dropWhile isSpaceM).reverse.dropWhile isSpaceM).reverse with
  | nil => rw [hcase] at hx; simp at hx
  | cons c r =>
    rw [hcase] at hx
    simp only [List.head?_cons, Option.some.injEq] at hx
    subst hx
    rw [← htl, hcase]
    rfl

theorem trim_getLast_not (u : LC) :
    ∀ x, (trimWs u).getLast? = some x → isSpaceM x = false := by
  intro x hx
  unfold trimWs at hx
  rw [List.getLast?_reverse] at hx
  exact dropWhile_head_not _ _ _ hx

theorem trim_of_clean (t : LC) (hh : ∀ x, t.head? = some x → isSpaceM x = false)
    (hl : ∀ x, t.getLast? = some x → isSpaceM x = false) : trimWs t = t := by
  unfold trimWs
  rw [dropWhile_eq_self_of_head _ t hh,
    dropWhile_eq_self_of_head _ t.reverse
      (fun x hx => hl x (by rwa [List.head?_reverse] at hx))]
  exact List.reverse_reverse t

theorem collapseAux_idem (u : LC) :
    collapseAux true (collapseAux true u) = collapseAux true u
    ∧ collapseAux false (collapseAux false u) = collapseAux false u := by
  induction u with
  | nil => exact ⟨rfl, rfl⟩
  | cons c t ih =>
    have hsp : isSpaceM ' ' = true := by decide
    by_cases h : isSpaceM c
    · constructor
      · simp [collapseAux, h, ih.1]
      · simp [collapseAux, h, hsp, ih.1]
    · constructor
      · simp [collapseAux, h, ih.2]
      · simp [collapseAux, h, ih.2]

theorem collapseAux_true_nil_space :
    ∀ u : LC, collapseAux true u = [] → ∀ x, u.getLast? = some x → isSpaceM x = true := by
  intro u
  induction u with
  | nil => intro _ x hx; simp at hx
  | cons c t ih =>
    intro hnil x hx
    by_cases h : isSpaceM c
    · have ht : collapseAux true t = [] := by simpa [collapseAux, h] using hnil
      cases t with
      | nil =>
        simp only [List.getLast?_singleton, Option.some.injEq] at hx
        subst hx
        exact h
      | cons d t' =>
        rw [List.getLast?_cons_cons] at hx
        exact ih ht x hx
    · exfalso
      simp [collapseAux, h] at hnil

theorem collapseAux_getLast_not :
    ∀ (u : LC) (b : Bool), (∀ x, u.getLast? = some x → isSpaceM x = false) →
      ∀ y, (collapseAux b u).getLast? = some y → isSpaceM y = false := by
  intro u
  induction u with
  | nil => intro b _ y hy; simp [collapseAux] at hy
  | cons c t ih =>
    intro b hcl y hy
    cases t with
    | nil =>
      have hc : isSpaceM c = false := hcl c (by simp)
      rw [show collapseAux b [c] = [c] by cases b <;> simp [collapseAux, hc]] at hy
      simp only [List.getLast?_singleton, Option.some.injEq] at hy
      subst hy
      exact hc
    | cons d t' =>
      have hcl' : ∀ x, (d :: t').getLast? = some x → isSpaceM x = false := by
        intro x hx
        exact hcl x (by rw [List.getLast?_cons_cons]; exact hx)
      by_cases h : isSpaceM c
      · cases b with
        | true =>
          rw [show collapseAux true (c :: d :: t') = collapseAux true (d :: t') by
            simp [collapseAux, h]] at hy
          exact ih true hcl' y hy
        | false =>
          rw [show collapseAux false (c :: d :: t') = ' ' :: collapseAux true (d :: t') by
            simp [collapseAux, h]] at hy
          cases hw : collapseAux true (d :: t') with
          | nil =>
            exfalso
            cases hgl : (d :: t').getLast? with
            | none => simp [List.getLast?_eq_none_iff] at hgl
            | some z =>
              have hz1 := hcl' z hgl
              have hz2 := collapseAux_true_nil_space (d :: t') hw z hgl
              rw [hz1] at hz2
              exact Bool.false_ne_true hz2
          | cons e w' =>
            rw [hw, List.getLast?_cons_cons] at hy
            exact ih true hcl' y (by rw [hw]; exact hy)
      · rw [show collapseAux b (c :: d :: t') = c :: collapseAux false (d :: t') by
          cases b <;> simp [collapseAux, h]] at hy
        cases hw : collapseAux false (d :: t') with
        | nil =>
          rw [hw] at hy
          simp only [List.getLast?_singleton, Option.some.injEq] at hy
          subst hy
          simpa using h
        | cons e w' =>
          rw [hw, List.getLast?_cons_cons] at hy
          exact ih false hcl' y (by rw [hw]; exact hy)

/-- C8: `_normalize_text` is idempotent — normalizing an already-normalized
string returns it unchanged, for every string of the embedding. -/
theorem c8_normalize_idem : ∀ s : LC, normalizeText (normalizeText s) = normalizeText s := by
  intro s
  have hstable : ∀ c ∈ normalizeText s, stableChar c := by
    intro c hc
    unfold normalizeText collapseWs at hc
    rcases mem_collapseAux hc with rfl | hcu
    · exact ⟨by decide, by decide, by decide⟩
    · have hcu0 : c ∈ lowerL (dropComb (nfkdL s)) := mem_trimWs hcu
      obtain ⟨d, hd, rfl⟩ := List.mem_map.mp hcu0
      obtain ⟨hd1, hd2⟩ := List.mem_filter.mp hd
      obtain ⟨e, _, hde⟩ := List.mem_flatMap.mp hd1
      rcases nfkd_out_stable e d hde with h | h
      · exact stable_toLowerM d h (by simpa using hd2)
      · rw [h] at hd2
        simp at hd2
  have h1 : nfkdL (normalizeText s) = normalizeText s :=
    nfkdL_fix _ (fun c hc => (hstable c hc).1)
  have h2 : dropComb (normalizeText s) = normalizeText s :=
    dropComb_fix _ (fun c hc => (hstable c hc).2.1)
  have h3 : lowerL (normalizeText s) = normalizeText s :=
    lowerL_fix _ (fun c hc => (hstable c hc).2.2)
  have hh : ∀ x, (normalizeText s).head? = some x → isSpaceM x = false := by
    intro x hx
    unfold normalizeText collapseWs at hx
    cases hu : trimWs (lowerL (dropComb (nfkdL s))) with
    | nil => rw [hu] at hx; simp [collapseAux] at hx
    | cons c u' =>
      have hc : isSpaceM c = false := trim_head_not _ c (by rw [hu]; rfl)
      rw [hu, show collapseAux false (c :: u') = c :: collapseAux false u' by
        simp [collapseAux, hc]] at hx
      simp only [List.head?_cons, Option.some.injEq] at hx
      subst hx
      exact hc
  have hl : ∀ x, (normalizeText s).getLast? = some x → isSpaceM x = false := by
    unfold normalizeText collapseWs
    exact collapseAux_getLast_not _ false (trim_getLast_not _)
  have htr : trimWs (normalizeText s) = normalizeText s := trim_of_clean _ hh hl
  have hcol : collapseWs (normalizeText s) = normalizeText s := by
    show collapseAux false (normalizeText s) = normalizeText s
    conv_lhs => rw [show normalizeText s
      = collapseAux false (trimWs (lowerL (dropComb (nfkdL s)))) from rfl]
    rw [(collapseAux_idem _).2]
    rfl
  calc normalizeText (normalizeText s)
      = collapseWs (trimWs (lowerL (dropComb (nfkdL (normalizeText s))))) := rfl
    _ = collapseWs (trimWs (normalizeText s)) := by rw [h1, h2, h3]
    _ = collapseWs (normalizeText s) := by rw [htr]
    _ = normalizeText s := hcol

/-! Helper lemmas for the identity-number vote. -/

theorem mem_dedupFirstAux :
    ∀ (fuel : Nat) (l : List LC), l.length ≤ fuel →
      ∀ x, x ∈ dedupFirstAux fuel l ↔ x ∈ l := by
  intro fuel
  induction fuel with
  | zero =>
    intro l hl x
    cases l with
    | nil => simp [dedupFirstAux]
    | cons a t => simp at hl
  | succ n ih =>
    intro l hl x
    cases l with
    | nil => simp [dedupFirstAux]
    | cons a t =>
      simp only [dedupFirstAux, List.mem_cons]
      rw [ih (t.filter (fun y => y ≠ a))
        (le_trans (List.length_filter_le _ _) (Nat.le_of_succ_le_succ hl)) x]
      simp only [List.mem_filter, decide_eq_true_eq]
      by_cases hx : x = a
      · simp [hx]
      · simp [hx]

theorem mem_dedupFirst (l : List LC) (x : LC) : x ∈ dedupFirst l ↔ x ∈ l :=
  mem_dedupFirstAux l.length l le_rfl x

theorem counterItems_mem_iff (l : List LC) (q : LC × Nat) :
    q ∈ counterItems l ↔ q.1 ∈ l ∧ q.2 = l.count q.1 := by
  rcases q with ⟨c, n⟩
  simp only [counterItems, List.mem_map, Prod.mk.injEq]
  constructor
  · rintro ⟨x, hx, rfl, rfl⟩
    exact ⟨(mem_dedupFirst l x).mp hx, rfl⟩
  · rintro ⟨hc, rfl⟩
    exact ⟨c, (mem_dedupFirst l c).mpr hc, rfl, rfl⟩

theorem counterItems_ne_nil {l : List LC} (h : l ≠ []) : counterItems l ≠ [] := by
  cases l with
  | nil => exact absurd rfl h
  | cons a t => simp [counterItems, dedupFirst, dedupFirstAux]

theorem keyGtB_false_iff (p q : Nat × Bool) : keyGtB p q = false ↔ keyLeB p q := by
  rcases p with ⟨pn, pb⟩
  rcases q with ⟨qn, qb⟩
  simp only [keyGtB, keyLeB, Bool.or_eq_false_iff, Bool.and_eq_false_iff,
    decide_eq_false_iff_not, not_lt]
  cases pb <;> cases qb <;> simp <;> omega

theorem keyGtB_true_elim {p q : Nat × Bool} (h : keyGtB p q = true) : keyLeB q p := by
  rcases p with ⟨pn, pb⟩
  rcases q with ⟨qn, qb⟩
  simp only [keyGtB, Bool.or_eq_true, Bool.and_eq_true, decide_eq_true_eq] at h
  simp only [keyLeB]
  cases pb <;> cases qb <;> simp_all
  omega

theorem keyLeB_refl (p : Nat × Bool) : keyLeB p p := Or.inr ⟨rfl, id⟩

theorem keyLeB_trans {p q r : Nat × Bool} (h1 : keyLeB p q) (h2 : keyLeB q r) :
    keyLeB p r := by
  rcases h1 with h1 | ⟨h1, h1b⟩ <;> rcases h2 with h2 | ⟨h2, h2b⟩
  · exact Or.inl (lt_trans h1 h2)
  · exact Or.inl (h2 ▸ h1)
  · exact Or.inl (h1 ▸ h2)
  · exact Or.inr ⟨h1.trans h2, fun hb => h2b (h1b hb)⟩

theorem pickFirstMax_spec :
    ∀ (l : List (LC × Nat)) (b : LC × Nat),
      (pickFirstMax b l = b ∨ pickFirstMax b l ∈ l)
      ∧ keyLeB (keyOf b) (keyOf (pickFirstMax b l))
      ∧ ∀ q ∈ l, keyLeB (keyOf q) (keyOf (pickFirstMax b l)) := by
  intro l
  induction l with
  | nil =>
    intro b
    exact ⟨Or.inl rfl, keyLeB_refl _, by simp⟩
  | cons p t ih =>
    intro b
    simp only [pickFirstMax]
    by_cases h : keyGtB (p.2, startsWith0 p.1) (b.2, startsWith0 b.1) = true
    · rw [if_pos h]
      obtain ⟨hmem, hband, hall⟩ := ih p
      refine ⟨?_, ?_, ?_⟩
      · rcases hmem with hm | hm
        · exact Or.inr (by rw [hm]; exact List.mem_cons_self p t)
        · exact Or.inr (List.mem_cons_of_mem p hm)
      · exact keyLeB_trans (keyGtB_true_elim h) hband
      · intro q hq
        rcases List.mem_cons.mp hq with rfl | hq
        · exact hband
        · exact hall q hq
    · rw [if_neg h]
      obtain ⟨hmem, hband, hall⟩ := ih b
      refine ⟨?_, hband, ?_⟩
      · rcases hmem with hm | hm
        · exact Or.inl hm
        · exact Or.inr (List.mem_cons_of_mem p hm)
      · intro q hq
        rcases List.mem_cons.mp hq with rfl | hq
        · exact keyLeB_trans ((keyGtB_false_iff _ _).mp (Bool.eq_false_iff.mpr h)) hband
        · exact hall q hq

/-- C1 (amended): `_choose_best_id` keeps only the candidates whose
digit-stripped form is exactly twelve digits and returns one of them with
the maximal (frequency, starts-with-'0') key — so the highest frequency
wins, and on a frequency tie a candidate starting with '0' beats one that
does not (the source sorts descending on the pair (count,
startswith('0'))); on the claim's example the majority value
079123456789 is still chosen. -/
theorem c1_choose_best_id :
    (∀ cands : List LC,
      let cl := (cands.map filterDigits).filter (fun c => c.length = 12)
      (cl = [] → chooseBestId cands = [])
      ∧ (cl ≠ [] →
          chooseBestId cands ∈ cl
          ∧ ∀ c ∈ cl,
              cl.count c < cl.count (chooseBestId cands)
              ∨ (cl.count c = cl.count (chooseBestId cands)
                  ∧ (startsWith0 c = true → startsWith0 (chooseBestId cands) = true))))
    ∧ chooseBestId [toL "079123456789", toL "079123456789", toL "012345678901"]
        = toL "079123456789" := by
  constructor
  · intro cands
    constructor
    · intro hnil
      simp only [chooseBestId]
      rw [hnil]
      rfl
    · intro hne
      obtain ⟨p, rest, hpr⟩ : ∃ p rest,
          counterItems ((cands.map filterDigits).filter (fun c => c.length = 12))
            = p :: rest := by
        cases hcl : counterItems ((cands.map filterDigits).filter (fun c => c.length = 12)) with
        | nil => exact absurd hcl (counterItems_ne_nil hne)
        | cons q qs => exact ⟨q, qs, rfl⟩
      have hres : chooseBestId cands = (pickFirstMax p rest).1 := by
        simp only [chooseBestId]
        rw [hpr]
      obtain ⟨hmem, _, hall⟩ := pickFirstMax_spec rest p
      have hresmem : pickFirstMax p rest ∈ counterItems
          ((cands.map filterDigits).filter (fun c => c.length = 12)) := by
        rw [hpr]
        rcases hmem with hm | hm
        · rw [hm]
          exact List.mem_cons_self p rest
        · exact List.mem_cons_of_mem p hm
      obtain ⟨hres1, hres2⟩ := (counterItems_mem_iff _ _).mp hresmem
      constructor
      · rw [hres]
        exact hres1
      · intro c hc
        have hcmem : (c, ((cands.map filterDigits).filter (fun x => x.length = 12)).count c)
            ∈ counterItems ((cands.map filterDigits).filter (fun x => x.length = 12)) :=
          (counterItems_mem_iff _ _).mpr ⟨hc, rfl⟩
        rw [hpr] at hcmem
        have hle : keyLeB (keyOf (c, ((cands.map filterDigits).filter
            (fun x => x.length = 12)).count c)) (keyOf (pickFirstMax p rest)) := by
          rcases List.mem_cons.mp hcmem with heq | hmem'
          · rw [heq]
            exact (pickFirstMax_spec rest p).2.1
          · exact hall _ hmem'
        rcases hle with hlt | ⟨heq, himp⟩
        · left
          rw [hres, ← hres2]
          exact hlt
        · right
          rw [hres, ← hres2]
          exact ⟨heq, himp⟩
  · decide

/-- C1 counterexample to the claim's tie-break direction: two candidates
with equal frequency, where the code returns the one starting with '0'
rather than the one not starting with '0'. -/
theorem c1_tie_break_counterexample :
    chooseBestId [toL "123456789012", toL "012345678901"] = toL "012345678901"
    ∧ startsWith0 (toL "012345678901") = true
    ∧ startsWith0 (toL "123456789012") = false
    ∧ [toL "123456789012", toL "012345678901"].count (toL "123456789012")
        = [toL "123456789012", toL "012345678901"].count (toL "012345678901") := by
  refine ⟨by decide, by decide, by decide, by decide⟩

/-- Witness for `c1_choose_best_id` on the claim's own example list. -/
theorem c1_choose_best_id_witness :
    chooseBestId [toL "079123456789", toL "079123456789", toL "012345678901"]
      ∈ ([toL "079123456789", toL "079123456789", toL "012345678901"].map
          filterDigits).filter (fun c => c.length = 12) :=
  ((c1_choose_best_id.1
    [toL "079123456789", toL "079123456789", toL "012345678901"]).2 (by decide)).1

/-- Witness for `c4_compact_date_roundtrip` at 1 July 2005 and at the
out-of-range compact string 99999999. -/
theorem c4_compact_date_roundtrip_witness :
    normalizeCompactDate (pad2 1 ++ pad2 7 ++ pad4 2005)
        = pad2 1 ++ '/' :: pad2 7 ++ '/' :: pad4 2005
    ∧ normalizeCompactDate ['9', '9', '9', '9', '9', '9', '9', '9'] = [] :=
  ⟨c4_compact_date_roundtrip.1 1 7 2005 (by norm_num) (by norm_num) (by norm_num)
      (by norm_num) (by norm_num) (by norm_num),
   c4_compact_date_roundtrip.2 '9' '9' '9' '9' '9' '9' '9' '9' (by decide) (by decide)
      (by decide) (by decide) (by decide) (by decide) (by decide) (by decide) (by decide)⟩

end IDC
